import Mathlib

/-!
Verification of the Dogecoin-Tools Doginals decoder / inscription builder
against its natural-language specification.

The JavaScript source is shallowly embedded: pure functions become Lean
functions on `List Nat` (bytes), `String` (tokens), and explicit state; the
while-loops of the source become fuel-based or structural recursions; JS
`undefined` / thrown exceptions become `Option` / `Except`.  Byte buffers are
`List Nat` with explicit `< 256` hypotheses; JS number truncation to bytes
(`Buffer.from`) is an explicit `% 256`.
-/

namespace DogeTools

/-! ### Generic character / string helpers -/

/-- One lowercase hex digit, `0..9a..f`. -/
def hexDigitChar (n : Nat) : Char :=
  if n < 10 then Char.ofNat (48 + n) else Char.ofNat (87 + n)

/-- Two lowercase hex digits of a byte, as produced by Node `Buffer.toString("hex")`. -/
def hexOfByte (b : Nat) : List Char :=
  [hexDigitChar (b / 16), hexDigitChar (b % 16)]

/-- Lowercase hex rendering of a byte list. -/
def hexOfBytes (bs : List Nat) : List Char :=
  bs.flatMap hexOfByte

/-- Lowercase hex rendering as a `String`. -/
def hexStr (bs : List Nat) : String :=
  ⟨hexOfBytes bs⟩

/-- Value of a single hex digit character (upper or lower case), if any. -/
def hexDigitVal (c : Char) : Option Nat :=
  if 48 ≤ c.toNat ∧ c.toNat ≤ 57 then some (c.toNat - 48)
  else if 97 ≤ c.toNat ∧ c.toNat ≤ 102 then some (c.toNat - 87)
  else if 65 ≤ c.toNat ∧ c.toNat ≤ 70 then some (c.toNat - 55)
  else none

/-- Node `Buffer.from(hex, "hex")`: consume hex-digit pairs, stopping at the
first pair that is not two hex digits (Node truncates there). -/
def hexPairsToBytes : List Char → List Nat
  | c1 :: c2 :: rest =>
    match hexDigitVal c1, hexDigitVal c2 with
    | some h, some l => (16 * h + l) :: hexPairsToBytes rest
    | _, _ => []
  | _ => []

/-- Little-endian byte-list value (used for script-number tokens). -/
def leValue (bs : List Nat) : Nat :=
  bs.foldr (fun b acc => acc * 256 + b) 0

/-- Little-endian decimal digits of `n` (least significant first); the first
argument is recursion fuel, `n` itself is always enough. -/
def decimalDigitsAux : Nat → Nat → List Nat
  | 0, _ => []
  | _ + 1, 0 => []
  | fuel + 1, n => n % 10 :: decimalDigitsAux fuel (n / 10)

/-- Big-endian decimal digit characters of a natural number. -/
def decimalChars (n : Nat) : List Char :=
  if n = 0 then ['0']
  else ((decimalDigitsAux n n).map fun d => Char.ofNat (48 + d)).reverse

/-- Canonical decimal rendering of a natural number. -/
def decimalRepr (n : Nat) : String :=
  ⟨decimalChars n⟩

/-- Bytes rendered as characters one-to-one.  This models Node
`Buffer.toString("utf8")` restricted to ASCII payloads (every byte below
`0x80`), which covers all mime-type strings the envelope carries. -/
def asciiOfBytes (bs : List Nat) : String :=
  ⟨bs.map fun b => Char.ofNat b⟩

/-- Whether `pat` occurs as a contiguous segment of `l`. -/
def listContainsSeg (pat : List Char) : List Char → Bool
  | [] => pat.isEmpty
  | c :: t => pat.isPrefixOf (c :: t) || listContainsSeg pat t

/-- JS `String.prototype.includes`. -/
def strContains (s pat : String) : Bool :=
  listContainsSeg pat.data s.data

/-! ### Basic lemmas about the helpers -/

theorem hexDigitVal_hexDigitChar {d : Nat} (hd : d < 16) :
    hexDigitVal (hexDigitChar d) = some d := by
  interval_cases d <;> decide

theorem hexPairsToBytes_hexOfBytes {bs : List Nat} (h : ∀ b ∈ bs, b < 256) :
    hexPairsToBytes (hexOfBytes bs) = bs := by
  induction bs with
  | nil => rfl
  | cons b rest ih =>
    have hb : b < 256 := h b (List.mem_cons_self b rest)
    have hhi : b / 16 < 16 := by omega
    have hlo : b % 16 < 16 := by omega
    have : hexOfBytes (b :: rest) =
        hexDigitChar (b / 16) :: hexDigitChar (b % 16) :: hexOfBytes rest := rfl
    rw [this]
    simp only [hexPairsToBytes, hexDigitVal_hexDigitChar hhi, hexDigitVal_hexDigitChar hlo]
    rw [ih fun x hx => h x (List.mem_cons_of_mem _ hx)]
    congr 1
    omega

theorem decimalDigitsAux_lt_ten {fuel n : Nat} :
    ∀ d ∈ decimalDigitsAux fuel n, d < 10 := by
  induction fuel generalizing n with
  | zero => intro d hd; simp [decimalDigitsAux] at hd
  | succ fuel ih =>
    rcases n with _ | m
    · intro d hd; simp [decimalDigitsAux] at hd
    · intro d hd
      have hd' : d ∈ (m + 1) % 10 :: decimalDigitsAux fuel ((m + 1) / 10) := hd
      rcases List.mem_cons.mp hd' with h | h
      · omega
      · exact ih d h

theorem decimalDigitsAux_val {fuel n : Nat} (h : n ≤ fuel) :
    (decimalDigitsAux fuel n).foldr (fun d acc => acc * 10 + d) 0 = n := by
  induction fuel generalizing n with
  | zero => simp [decimalDigitsAux]; omega
  | succ fuel ih =>
    by_cases h0 : n = 0
    · subst h0; simp [decimalDigitsAux]
    · rcases n with _ | m
      · simp at h0
      · show (decimalDigitsAux (fuel + 1) (m + 1)).foldr _ 0 = m + 1
        rw [decimalDigitsAux.eq_def]
        simp only [List.foldr_cons]
        have hrec : (m + 1) / 10 ≤ fuel := by omega
        rw [ih hrec]
        omega

theorem decimalDigitsAux_ne_nil {fuel n : Nat} (hn : n ≠ 0) (h : 1 ≤ fuel) :
    decimalDigitsAux fuel n ≠ [] := by
  rcases fuel with _ | fuel
  · omega
  · rcases n with _ | m
    · omega
    · simp [decimalDigitsAux]

theorem char_digit_toNat {d : Nat} (hd : d < 10) :
    (Char.ofNat (48 + d)).toNat = 48 + d := by
  interval_cases d <;> decide

theorem char_digit_isDigit {d : Nat} (hd : d < 10) :
    (Char.ofNat (48 + d)).isDigit = true := by
  interval_cases d <;> decide

theorem char_digit_ne_minus {d : Nat} (hd : d < 10) :
    Char.ofNat (48 + d) ≠ '-' := by
  interval_cases d <;> decide

/-! ### C10: script-number chunk encoding (`numberToChunk` / `chunkToNumber`)

From `src/unnamed/part_000`.  JS `Buffer.from` truncates each array element to
a byte, hence the explicit `% 256` on the two-byte encoding. -/

structure Chunk where
  buf : List Nat
  len : Nat
  opcodenum : Nat
deriving Repr, DecidableEq

def bufferToChunk (b : List Nat) : Chunk :=
  { buf := b,
    len := b.length,
    opcodenum := if b.length ≤ 75 then b.length else if b.length ≤ 255 then 76 else 77 }

def numberToChunk (n : Nat) : Chunk :=
  { buf := if n ≤ 16 then [] else if n < 128 then [n] else [n % 256, n / 256 % 256],
    len := if n ≤ 16 then 0 else if n < 128 then 1 else 2,
    opcodenum := if n = 0 then 0 else if n ≤ 16 then 80 + n else if n < 128 then 1 else 2 }

def chunkToNumber (chunk : Chunk) : Option Nat :=
  if chunk.opcodenum = 0 then some 0
  else if chunk.opcodenum = 1 then some (chunk.buf.getD 0 0)
  else if chunk.opcodenum = 2 then some (chunk.buf.getD 1 0 * 255 + chunk.buf.getD 0 0)
  else if 80 < chunk.opcodenum ∧ chunk.opcodenum ≤ 96 then some (chunk.opcodenum - 80)
  else none

/-- C10: `chunkToNumber` is a left inverse of `numberToChunk` exactly on
`0 ≤ n ≤ 255`; for `256 ≤ n < 65536` the two-byte branch multiplies the high
byte by 255 instead of 256, returning `n - n / 256 ≠ n`, so any
remaining-chunk marker of 256 or more is misread by `extract`. -/
theorem c10_chunkToNumber_numberToChunk :
    (∀ n : Nat, n ≤ 255 → chunkToNumber (numberToChunk n) = some n) ∧
    (∀ n : Nat, 256 ≤ n → n < 65536 →
      chunkToNumber (numberToChunk n) = some (n - n / 256) ∧ n - n / 256 ≠ n) := by
  constructor
  · intro n hn
    simp only [numberToChunk, chunkToNumber]
    by_cases h0 : n = 0
    · subst h0; decide
    · by_cases h16 : n ≤ 16
      · have h1 : ¬ (80 + n = 0) := by omega
        have h2 : ¬ (80 + n = 1) := by omega
        have h3 : ¬ (80 + n = 2) := by omega
        have h4 : 80 < 80 + n ∧ 80 + n ≤ 96 := by omega
        simp only [if_pos h16, if_neg h0, if_pos h16, if_neg h1, if_neg h2, if_neg h3,
          if_pos h4]
        simp only [Option.some.injEq]
        omega
      · by_cases h128 : n < 128
        · simp only [if_neg h16, if_pos h128, if_neg h0,
            if_neg (show ¬ (1 = 0) by omega)]
          norm_num [List.getD]
        · have hA : ¬ (2 = 0) := by omega
          have hB : ¬ (2 = 1) := by omega
          have hdiv : n / 256 = 0 := by omega
          have hmod : n % 256 = n := by omega
          simp only [if_neg h16, if_neg h128, if_neg h0, if_neg hA, if_neg hB, if_pos rfl]
          simp only [if_true, List.getD_cons_succ, List.getD_cons_zero, Option.some.injEq,
            hdiv, hmod]
          norm_num
  · intro n h256 h65536
    constructor
    · simp only [numberToChunk, chunkToNumber]
      have h16 : ¬ (n ≤ 16) := by omega
      have h128 : ¬ (n < 128) := by omega
      have h0 : ¬ (n = 0) := by omega
      have hA : ¬ (2 = 0) := by omega
      have hB : ¬ (2 = 1) := by omega
      have hq : n / 256 < 256 := by omega
      have hqq : n / 256 % 256 = n / 256 := Nat.mod_eq_of_lt hq
      simp only [if_neg h16, if_neg h128, if_neg h0, if_neg hA, if_neg hB, if_pos rfl]
      simp only [if_true, List.getD_cons_succ, List.getD_cons_zero, Option.some.injEq, hqq]
      have hdm := Nat.div_add_mod n 256
      omega
    · omega

/-- Concrete check of C10 at `n = 5` and `n = 1000`. -/
theorem c10_chunkToNumber_numberToChunk_witness :
    chunkToNumber (numberToChunk 5) = some 5 ∧
    chunkToNumber (numberToChunk 1000) = some (1000 - 1000 / 256) :=
  ⟨c10_chunkToNumber_numberToChunk.1 5 (by decide),
   (c10_chunkToNumber_numberToChunk.2 1000 (by decide) (by decide)).1⟩

/-! ### Decimal tokens: rendering and the decoder's integer parsing

`isIntegerString`, `hexToAscii`, and the `parseInt` calls are from the decoder
in `src/README.md`. -/

/-- The decoder's `/^-?\d+$/` test (`isIntegerString`), at character level. -/
def isIntStr : List Char → Bool
  | [] => false
  | c :: rest =>
    if c = '-' then !rest.isEmpty && rest.all Char.isDigit
    else c.isDigit && rest.all Char.isDigit

def isIntegerString (s : String) : Bool :=
  isIntStr s.data

/-- JS `token.replace(RE_LEADING_MINUS, "")`: drop one leading minus sign. -/
def stripMinus (l : List Char) : List Char :=
  match l with
  | [] => []
  | c :: rest => if c = '-' then rest else c :: rest

/-- Value of a big-endian digit-character list. -/
def digitsVal (l : List Char) : Nat :=
  l.foldl (fun acc c => acc * 10 + (c.toNat - 48)) 0

/-- JS `parseInt(_, 10)` after the minus strip: parse the longest digit
prefix; `none` models `NaN`. -/
def parseIntCore (l : List Char) : Option Nat :=
  let digits := (stripMinus l).takeWhile Char.isDigit
  if digits.isEmpty then none else some (digitsVal digits)

def parseIntToken (s : String) : Option Nat :=
  parseIntCore s.data

/-- `hexToAscii` of the decoder: hex decode then text decode (ASCII model,
see `asciiOfBytes`); the source falls back to the empty-string case at use
sites via JS truthiness. -/
def hexToAscii (hexString : String) : String :=
  asciiOfBytes (hexPairsToBytes hexString.data)

theorem decimalChars_all_digit (n : Nat) :
    ∀ c ∈ decimalChars n, c.isDigit = true := by
  intro c hc
  unfold decimalChars at hc
  by_cases h0 : n = 0
  · rw [if_pos h0] at hc
    simp at hc
    subst hc; decide
  · rw [if_neg h0] at hc
    rw [List.mem_reverse] at hc
    obtain ⟨d, hd, rfl⟩ := List.mem_map.mp hc
    exact char_digit_isDigit (decimalDigitsAux_lt_ten d hd)

theorem decimalChars_ne_nil (n : Nat) : decimalChars n ≠ [] := by
  unfold decimalChars
  by_cases h0 : n = 0
  · rw [if_pos h0]; simp
  · rw [if_neg h0]
    simp only [ne_eq, List.reverse_eq_nil_iff, List.map_eq_nil_iff]
    exact decimalDigitsAux_ne_nil h0 (by omega)

theorem takeWhile_of_all {p : Char → Bool} :
    ∀ l : List Char, (∀ c ∈ l, p c = true) → l.takeWhile p = l := by
  intro l h
  induction l with
  | nil => rfl
  | cons c t ih =>
    rw [List.takeWhile_cons, h c (List.mem_cons_self c t)]
    simp [ih fun x hx => h x (List.mem_cons_of_mem _ hx)]

theorem digitsVal_rev_map (ds : List Nat) (h : ∀ d ∈ ds, d < 10) :
    digitsVal ((ds.map fun d => Char.ofNat (48 + d)).reverse) =
      ds.foldr (fun d acc => acc * 10 + d) 0 := by
  induction ds with
  | nil => rfl
  | cons d ds ih =>
    have hd : d < 10 := h d (List.mem_cons_self d ds)
    simp only [List.map_cons, List.reverse_cons, List.foldr_cons]
    unfold digitsVal
    rw [List.foldl_append]
    have := ih fun x hx => h x (List.mem_cons_of_mem _ hx)
    unfold digitsVal at this
    rw [this]
    simp only [List.foldl_cons, List.foldl_nil]
    rw [char_digit_toNat hd]
    omega

theorem digitsVal_decimalChars (n : Nat) : digitsVal (decimalChars n) = n := by
  by_cases h0 : n = 0
  · subst h0; decide
  · unfold decimalChars
    rw [if_neg h0]
    rw [digitsVal_rev_map _ (fun d hd => decimalDigitsAux_lt_ten d hd)]
    exact decimalDigitsAux_val (Nat.le_refl n)

theorem isIntegerString_decimalRepr (n : Nat) :
    isIntegerString (decimalRepr n) = true := by
  unfold isIntegerString decimalRepr
  show isIntStr (decimalChars n) = true
  obtain ⟨c, rest, hcr⟩ := List.exists_cons_of_ne_nil (decimalChars_ne_nil n)
  have hall := decimalChars_all_digit n
  rw [hcr] at hall ⊢
  have hc : c.isDigit = true := hall c (List.mem_cons_self c rest)
  have hcm : ¬ (c = '-') := by
    intro h; rw [h] at hc; simp at hc
  simp only [isIntStr, if_neg hcm, hc, Bool.true_and, List.all_eq_true]
  intro x hx
  exact hall x (List.mem_cons_of_mem _ hx)

theorem parseIntToken_decimalRepr (n : Nat) :
    parseIntToken (decimalRepr n) = some n := by
  unfold parseIntToken decimalRepr
  show parseIntCore (decimalChars n) = some n
  obtain ⟨c, rest, hcr⟩ := List.exists_cons_of_ne_nil (decimalChars_ne_nil n)
  have hall := decimalChars_all_digit n
  have hc : c.isDigit = true := hall c (by rw [hcr]; exact List.mem_cons_self c rest)
  have hcm : ¬ (c = '-') := by
    intro h; rw [h] at hc; simp at hc
  unfold parseIntCore
  have hstrip : stripMinus (decimalChars n) = decimalChars n := by
    rw [hcr]; simp only [stripMinus, if_neg hcm]
  rw [hstrip, takeWhile_of_all _ hall]
  rw [if_neg (by simp [List.isEmpty_iff]; exact decimalChars_ne_nil n)]
  rw [digitsVal_decimalChars]

theorem isIntegerString_empty : isIntegerString "" = false := by decide

/-! ### The genesis / subsequent envelope parsers (from `src/README.md`) -/

structure GenesisResult where
  dataHex : String
  mimeType : String
  endOfData : Bool
  chunksFound : Nat
  lastNumChunks : Option Nat
deriving Repr, DecidableEq

structure SubsequentResult where
  dataHex : String
  endOfData : Bool
  chunksFound : Nat
  lastNumChunks : Option Nat
deriving Repr, DecidableEq

/-- The `(integer, hex)` pair-consumption loop shared verbatim by
`processGenesisAsm` (from token index 3) and `processSubsequentAsm` (from
index 0): read an integer marker token, append the following token to the
accumulated hex, stop with `endOfData` when the marker parses to 0, break on
a non-integer token or a missing chunk token. -/
def asmPairLoop : String → Nat → Option Nat → List String → String × Nat × Option Nat × Bool
  | dataHex, chunksFound, lastNumChunks, [] => (dataHex, chunksFound, lastNumChunks, false)
  | dataHex, chunksFound, lastNumChunks, tok :: rest =>
    if isIntegerString tok then
      match rest with
      | [] => (dataHex, chunksFound, lastNumChunks, false)
      | chunk :: rest2 =>
        let numChunks := (parseIntToken tok).getD 0
        if numChunks = 0 then (dataHex ++ chunk, chunksFound + 1, some 0, true)
        else asmPairLoop (dataHex ++ chunk) (chunksFound + 1) (some numChunks) rest2
    else (dataHex, chunksFound, lastNumChunks, false)

def processGenesisAsm (asmData : List String) : Except String GenesisResult :=
  if asmData.length < 3 then .error "Genesis asm too short."
  else
    let numChunks0 := parseIntToken (asmData.getD 1 "")
    let mimeTypeHex := asmData.getD 2 ""
    let decoded := hexToAscii mimeTypeHex
    let mimeType := if decoded = "" then "application/octet-stream" else decoded
    match asmPairLoop "" 0 numChunks0 (asmData.drop 3) with
    | (dataHex, chunksFound, lastNumChunks, endOfData) =>
      .ok { dataHex := dataHex, mimeType := mimeType, endOfData := endOfData,
            chunksFound := chunksFound, lastNumChunks := lastNumChunks }

def processSubsequentAsm (asmData : List String) : SubsequentResult :=
  match asmPairLoop "" 0 none asmData with
  | (dataHex, chunksFound, lastNumChunks, endOfData) =>
    { dataHex := dataHex, endOfData := endOfData,
      chunksFound := chunksFound, lastNumChunks := lastNumChunks }

/-! ### Spec-side description of the greedy pair consumption (claim C3) -/

/-- Spec-side recursion, written from the claim: greedily consume
`(integer, hex)` pairs, accumulating hex chunks in order, and stop with
end-of-data exactly when a consumed pair's integer equals 0 (that pair's hex
chunk is still accumulated).  Returns accumulated hex, count of consumed
pairs, and the end-of-data flag. -/
def specConsumePairs : List (Nat × String) → String × Nat × Bool
  | [] => ("", 0, false)
  | (n, h) :: rest =>
    if n = 0 then (h, 1, true)
    else
      match specConsumePairs rest with
      | (hs, c, eod) => (h ++ hs, c + 1, eod)

/-- Last-seen marker value of the consumed pairs (seeded by the initial
remaining-chunks value). -/
def specLast : List (Nat × String) → Option Nat → Option Nat
  | [], last => last
  | (n, _) :: rest, _ =>
    if n = 0 then some 0 else specLast rest (some n)

/-- A pair list rendered as alternating decimal-marker and chunk tokens. -/
def flatTok (qs : List (Nat × String)) : List String :=
  qs.flatMap fun q => [decimalRepr q.1, q.2]

theorem asmPairLoop_spec (qs : List (Nat × String)) (tail : List String)
    (htail : isIntegerString (tail.headD "") = false) :
    ∀ (acc : String) (c : Nat) (last : Option Nat),
      asmPairLoop acc c last (flatTok qs ++ tail) =
        (acc ++ (specConsumePairs qs).1, c + (specConsumePairs qs).2.1,
         specLast qs last, (specConsumePairs qs).2.2) := by
  induction qs with
  | nil =>
    intro acc c last
    show asmPairLoop acc c last tail = _
    have hres : asmPairLoop acc c last tail = (acc, c, last, false) := by
      match tail, htail with
      | [], _ => rfl
      | t :: r, htail =>
        have ht : isIntegerString t = false := by simpa using htail
        unfold asmPairLoop
        rw [ht]
        simp
    rw [hres]
    simp [specConsumePairs, specLast, String.append_empty]
  | cons q qs ih =>
    intro acc c last
    obtain ⟨n, h⟩ := q
    show asmPairLoop acc c last
        (decimalRepr n :: h :: (flatTok qs ++ tail)) = _
    unfold asmPairLoop
    rw [isIntegerString_decimalRepr]
    simp only [if_true, parseIntToken_decimalRepr, Option.getD_some]
    by_cases hn : n = 0
    · subst hn
      simp only [if_pos rfl]
      simp [specConsumePairs, specLast]
    · rw [if_neg hn]
      rw [ih (acc ++ h) (c + 1) (some n)]
      rcases hsp : specConsumePairs qs with ⟨hs, cc, eod⟩
      have h1 : specConsumePairs ((n, h) :: qs) = (h ++ hs, cc + 1, eod) := by
        simp only [specConsumePairs, if_neg hn, hsp]
      have h2 : specLast ((n, h) :: qs) last = specLast qs (some n) := by
        simp only [specLast, if_neg hn]
      rw [h1, h2]
      simp only [Prod.mk.injEq]
      exact ⟨String.append_assoc acc h hs, by omega, trivial⟩

theorem processGenesisAsm_eval (s m : String) (r : Nat) (qs : List (Nat × String))
    (tail : List String) (htail : isIntegerString (tail.headD "") = false) :
    processGenesisAsm (s :: decimalRepr r :: m :: (flatTok qs ++ tail)) =
      .ok { dataHex := (specConsumePairs qs).1,
            mimeType := if hexToAscii m = "" then "application/octet-stream"
                        else hexToAscii m,
            endOfData := (specConsumePairs qs).2.2,
            chunksFound := (specConsumePairs qs).2.1,
            lastNumChunks := specLast qs (some r) } := by
  have hlen : ¬ ((s :: decimalRepr r :: m :: (flatTok qs ++ tail)).length < 3) := by
    simp only [List.length_cons]
    omega
  simp only [processGenesisAsm, if_neg hlen, List.getD_cons_succ, List.getD_cons_zero,
    List.drop_succ_cons, List.drop_zero]
  rw [parseIntToken_decimalRepr]
  rw [asmPairLoop_spec qs tail htail "" 0 (some r)]
  simp only [String.empty_append, Nat.zero_add]

/-- C3: `processGenesisAsm` fails with an error on streams of fewer than 3
tokens; on `[sentinel, remainingChunks, mimeTypeHex, pairs..., tail]` it
returns the mime type as the UTF-8 decoding of `mimeTypeHex` (with the
source's octet-stream fallback for an empty decode) and greedily consumes
`(integer, hex)` pairs starting at token index 3, accumulating the hex chunks
in order, with `endOfData` true exactly when a consumed pair's integer equals
0 (that pair's hex chunk still being accumulated), as described by
`specConsumePairs`. -/
theorem c3_processGenesisAsm_greedy :
    (∀ asmData : List String, asmData.length < 3 →
      processGenesisAsm asmData = .error "Genesis asm too short.") ∧
    (∀ (s m : String) (r : Nat) (qs : List (Nat × String)) (tail : List String),
      isIntegerString (tail.headD "") = false →
      processGenesisAsm (s :: decimalRepr r :: m :: (flatTok qs ++ tail)) =
        .ok { dataHex := (specConsumePairs qs).1,
              mimeType := if hexToAscii m = "" then "application/octet-stream"
                          else hexToAscii m,
              endOfData := (specConsumePairs qs).2.2,
              chunksFound := (specConsumePairs qs).2.1,
              lastNumChunks := specLast qs (some r) }) := by
  constructor
  · intro asmData hlen
    unfold processGenesisAsm
    rw [if_pos hlen]
  · intro s m r qs tail htail
    exact processGenesisAsm_eval s m r qs tail htail

/-- Concrete check of C3: a two-pair stream ending in a zero marker. -/
theorem c3_processGenesisAsm_greedy_witness :
    isIntegerString ((["ff"] : List String).headD "") = false ∧
    processGenesisAsm ("6582895" :: decimalRepr 1 :: "74" ::
        (flatTok [(1, "ab"), (0, "cd")] ++ ["ff"])) =
      .ok { dataHex := (specConsumePairs [(1, "ab"), (0, "cd")]).1,
            mimeType := if hexToAscii "74" = "" then "application/octet-stream"
                        else hexToAscii "74",
            endOfData := (specConsumePairs [(1, "ab"), (0, "cd")]).2.2,
            chunksFound := (specConsumePairs [(1, "ab"), (0, "cd")]).2.1,
            lastNumChunks := specLast [(1, "ab"), (0, "cd")] (some 1) } :=
  ⟨by decide,
   c3_processGenesisAsm_greedy.2 "6582895" "74" 1 [(1, "ab"), (0, "cd")] ["ff"] (by decide)⟩

/-! ### Inscription builder (from `inscribe` in `src/unnamed/part_000`) -/

def MAX_SCRIPT_ELEMENT_SIZE : Nat := 520
def MAX_CHUNK_LEN : Nat := 240
def MAX_PAYLOAD_LEN : Nat := 1500

/-- The `data.slice` splitting loop of `inscribe`: cut the payload into parts
of at most `MAX_CHUNK_LEN` bytes.  Fuel = data length (each step consumes at
least one byte). -/
def splitPartsAux : Nat → List Nat → List (List Nat)
  | 0, _ => []
  | _ + 1, [] => []
  | fuel + 1, data => data.take MAX_CHUNK_LEN :: splitPartsAux fuel (data.drop MAX_CHUNK_LEN)

def splitParts (data : List Nat) : List (List Nat) :=
  splitPartsAux data.length data

/-- Serialized size of one chunk under bitcore's `Script.toBuffer` (external
library; the modelling is the standard Bitcoin script serialization: one
opcode byte, a 1/2/4-byte explicit length for `OP_PUSHDATA1/2/4`, then the
pushed bytes). -/
def chunkSize (c : Chunk) : Nat :=
  1 + (if c.opcodenum = 76 then 1 else if c.opcodenum = 77 then 2
       else if c.opcodenum = 78 then 4 else 0) + c.buf.length

def scriptSize (s : List Chunk) : Nat :=
  (s.map chunkSize).sum

/-- The UTF-8 bytes of the `"ord"` envelope prefix. -/
def ordBytes : List Nat := [111, 114, 100]

/-- Marker/data chunk pairs flattened into a chunk list. -/
def flatPairs (ps : List (Chunk × Chunk)) : List Chunk :=
  ps.flatMap fun q => [q.1, q.2]

/-- The `parts.forEach((part, n) => ...)` loop of `inscribe`: one
`(numberToChunk(parts.length - n - 1), bufferToChunk(part))` pair per part. -/
def envPairsAux (total : Nat) : Nat → List (List Nat) → List (Chunk × Chunk)
  | _, [] => []
  | n, part :: rest =>
    (numberToChunk (total - n - 1), bufferToChunk part) :: envPairsAux total (n + 1) rest

/-- The full inscription chunk stream built by `inscribe` before packing:
`"ord"`, number of parts, content type, then the marker/part pairs. -/
def inscriptionChunks (contentType data : List Nat) : List Chunk :=
  let parts := splitParts data
  bufferToChunk ordBytes :: numberToChunk parts.length :: bufferToChunk contentType ::
    flatPairs (envPairsAux parts.length 0 parts)

/-- The envelope chunk pairs (the leading `(numParts, contentType)` pair
followed by the data pairs); `inscriptionChunks` is the `"ord"` chunk
followed by their flattening. -/
def envPairs (contentType data : List Nat) : List (Chunk × Chunk) :=
  (numberToChunk (splitParts data).length, bufferToChunk contentType) ::
    envPairsAux (splitParts data).length 0 (splitParts data)

theorem inscriptionChunks_eq (contentType data : List Nat) :
    inscriptionChunks contentType data =
      bufferToChunk ordBytes :: flatPairs (envPairs contentType data) := rfl

/-- Inner `while` loop of the packer: shift `(marker, chunk)` pairs into the
current partial script while its serialized size is within
`MAX_PAYLOAD_LEN` and chunks remain.  (The source reaches this loop only
with an even number of remaining chunks, so the singleton fallback is
unreachable.) -/
def packPieceLoop : List Chunk → List Chunk → List Chunk × List Chunk
  | piece, c1 :: c2 :: rest =>
    if scriptSize piece ≤ MAX_PAYLOAD_LEN then packPieceLoop (piece ++ [c1, c2]) rest
    else (piece, c1 :: c2 :: rest)
  | piece, chunks => (piece, chunks)

/-- One iteration of the outer packing loop of `inscribe`: build one partial
script, reverting the last pair (two `unshift`s of two `pop`s) when the
piece overflows `MAX_PAYLOAD_LEN`. -/
def packOne (isFirst : Bool) (chunks : List Chunk) : List Chunk × List Chunk :=
  let start := if isFirst then chunks.take 1 else []
  let rest0 := if isFirst then chunks.drop 1 else chunks
  match packPieceLoop start rest0 with
  | (piece, rest) =>
    if MAX_PAYLOAD_LEN < scriptSize piece then
      (piece.take (piece.length - 2), piece.drop (piece.length - 2) ++ rest)
    else (piece, rest)

/-- Outer `while (inscription.chunks.length)` loop of `inscribe`, producing
the ordered list of partial scripts.  Fuel bounds the iterations; the chunk
count is always sufficient because every iteration of the source loop
consumes at least one pair. -/
def packPieces : Nat → Bool → List Chunk → List (List Chunk)
  | 0, _, _ => []
  | _ + 1, _, [] => []
  | fuel + 1, isFirst, chunks =>
    match packOne isFirst chunks with
    | (piece, rest) => piece :: packPieces fuel false rest

/-- The partial scripts of the transaction chain built by `inscribe`. -/
def inscribePieces (contentType data : List Nat) : List (List Chunk) :=
  let chunks := inscriptionChunks contentType data
  packPieces chunks.length true chunks

/-- Number of transactions produced by `inscribe`: one commit per partial
script plus the final reveal (which carries the last partial in its unlock
script). -/
def inscribeTxCount (contentType data : List Nat) : Nat :=
  (inscribePieces contentType data).length + 1

/-! ### Packing lemmas -/

theorem scriptSize_append (a b : List Chunk) :
    scriptSize (a ++ b) = scriptSize a + scriptSize b := by
  unfold scriptSize
  rw [List.map_append, List.sum_append]

theorem flatPairs_cons (q : Chunk × Chunk) (ps : List (Chunk × Chunk)) :
    flatPairs (q :: ps) = q.1 :: q.2 :: flatPairs ps := rfl

theorem flatPairs_append (a b : List (Chunk × Chunk)) :
    flatPairs (a ++ b) = flatPairs a ++ flatPairs b := by
  unfold flatPairs
  rw [List.flatMap_append]

theorem flatPairs_length (ps : List (Chunk × Chunk)) :
    (flatPairs ps).length = 2 * ps.length := by
  induction ps with
  | nil => rfl
  | cons q ps ih => rw [flatPairs_cons]; simp [ih]; omega

theorem packPieceLoop_spec (ps : List (Chunk × Chunk)) : ∀ piece : List Chunk,
    ∃ k, k ≤ ps.length ∧
      packPieceLoop piece (flatPairs ps) =
        (piece ++ flatPairs (ps.take k), flatPairs (ps.drop k)) ∧
      (scriptSize piece ≤ MAX_PAYLOAD_LEN → ps ≠ [] → 1 ≤ k) ∧
      (k < ps.length → MAX_PAYLOAD_LEN < scriptSize (piece ++ flatPairs (ps.take k))) ∧
      (∀ j < k, scriptSize (piece ++ flatPairs (ps.take j)) ≤ MAX_PAYLOAD_LEN) := by
  induction ps with
  | nil =>
    intro piece
    refine ⟨0, Nat.le_refl 0, ?_, ?_, ?_, ?_⟩
    · show packPieceLoop piece [] = _
      simp [packPieceLoop, flatPairs]
    · intro _ hne; exact absurd rfl hne
    · intro h; simp at h
    · intro j hj; omega
  | cons q ps ih =>
    intro piece
    rw [flatPairs_cons]
    by_cases hsz : scriptSize piece ≤ MAX_PAYLOAD_LEN
    · obtain ⟨k', hk'le, hk'eq, _, hk'over, hk'under⟩ := ih (piece ++ [q.1, q.2])
      refine ⟨k' + 1, ?_, ?_, ?_, ?_, ?_⟩
      · simp only [List.length_cons]; omega
      · show packPieceLoop piece (q.1 :: q.2 :: flatPairs ps) = _
        unfold packPieceLoop
        rw [if_pos hsz]
        rw [hk'eq]
        rw [List.take_succ_cons, flatPairs_cons, List.drop_succ_cons]
        simp [List.append_assoc]
      · intro _ _; omega
      · intro hlt
        have hk : k' < ps.length := by
          simp only [List.length_cons] at hlt; omega
        have h2 := hk'over hk
        rw [List.take_succ_cons, flatPairs_cons]
        simpa [List.append_assoc] using h2
      · intro j hj
        rcases j with _ | j'
        · simpa [flatPairs] using hsz
        · have hj' : j' < k' := by omega
          have h2 := hk'under j' hj'
          rw [List.take_succ_cons, flatPairs_cons]
          simpa [List.append_assoc] using h2
    · refine ⟨0, by omega, ?_, ?_, ?_, ?_⟩
      · show packPieceLoop piece (q.1 :: q.2 :: flatPairs ps) = _
        unfold packPieceLoop
        rw [if_neg hsz]
        simp [flatPairs]
      · intro h _; exact absurd h hsz
      · intro _
        have hlt : MAX_PAYLOAD_LEN < scriptSize piece := by omega
        simpa [flatPairs] using hlt
      · intro j hj; omega

theorem chunkSize_numberToChunk_le (n : Nat) : chunkSize (numberToChunk n) ≤ 3 := by
  unfold chunkSize numberToChunk
  by_cases h0 : n = 0
  · subst h0; decide
  · by_cases h16 : n ≤ 16
    · have e1 : ¬ (80 + n = 76) := by omega
      have e2 : ¬ (80 + n = 77) := by omega
      have e3 : ¬ (80 + n = 78) := by omega
      simp only [if_pos h16, if_neg h0, if_neg e1, if_neg e2, if_neg e3, List.length_nil]
      omega
    · by_cases h128 : n < 128
      · simp only [if_neg h16, if_pos h128, if_neg h0]
        norm_num
      · simp only [if_neg h16, if_neg h128, if_neg h0]
        norm_num

theorem chunkSize_bufferToChunk_le (b : List Nat) :
    chunkSize (bufferToChunk b) ≤ 3 + b.length := by
  unfold chunkSize bufferToChunk
  by_cases h75 : b.length ≤ 75
  · have e1 : ¬ (b.length = 76) := by omega
    have e2 : ¬ (b.length = 77) := by omega
    have e3 : ¬ (b.length = 78) := by omega
    simp only [if_pos h75, if_neg e1, if_neg e2, if_neg e3]
    omega
  · by_cases h255 : b.length ≤ 255
    · simp only [if_neg h75, if_pos h255]
      norm_num
    · simp only [if_neg h75, if_neg h255]
      norm_num

theorem splitPartsAux_part_le : ∀ (fuel : Nat) (data : List Nat),
    ∀ p ∈ splitPartsAux fuel data, p.length ≤ MAX_CHUNK_LEN := by
  intro fuel
  induction fuel with
  | zero => intro data p hp; simp [splitPartsAux] at hp
  | succ fuel ih =>
    intro data p hp
    rcases data with _ | ⟨b, rest⟩
    · simp [splitPartsAux] at hp
    · have hp' : p ∈ (b :: rest).take MAX_CHUNK_LEN ::
          splitPartsAux fuel ((b :: rest).drop MAX_CHUNK_LEN) := hp
      rcases List.mem_cons.mp hp' with h | h
      · subst h
        simp [List.length_take]
      · exact ih _ p h

theorem splitPartsAux_flatten : ∀ (fuel : Nat) (data : List Nat),
    data.length ≤ fuel → (splitPartsAux fuel data).flatten = data := by
  intro fuel
  induction fuel with
  | zero =>
    intro data h
    have : data = [] := by
      cases data
      · rfl
      · simp at h
    subst this; rfl
  | succ fuel ih =>
    intro data h
    rcases data with _ | ⟨b, rest⟩
    · rfl
    · show (((b :: rest).take MAX_CHUNK_LEN :: splitPartsAux fuel ((b :: rest).drop MAX_CHUNK_LEN)).flatten) = _
      rw [List.flatten_cons]
      rw [ih ((b :: rest).drop MAX_CHUNK_LEN) (by
        simp only [List.length_drop, List.length_cons, MAX_CHUNK_LEN]
        simp only [List.length_cons] at h
        omega)]
      exact List.take_append_drop _ _

theorem splitParts_flatten (data : List Nat) : (splitParts data).flatten = data :=
  splitPartsAux_flatten data.length data (Nat.le_refl _)

theorem splitParts_part_le (data : List Nat) :
    ∀ p ∈ splitParts data, p.length ≤ MAX_CHUNK_LEN :=
  splitPartsAux_part_le data.length data

theorem splitParts_ne_nil (data : List Nat) (h : data ≠ []) : splitParts data ≠ [] := by
  unfold splitParts
  rcases data with _ | ⟨b, rest⟩
  · exact absurd rfl h
  · simp only [List.length_cons]
    show (b :: rest).take MAX_CHUNK_LEN :: _ ≠ []
    simp

theorem envPairsAux_bound (total : Nat) : ∀ (parts : List (List Nat)) (i : Nat),
    (∀ p ∈ parts, p.length ≤ MAX_CHUNK_LEN) →
    ∀ q ∈ envPairsAux total i parts, chunkSize q.1 + chunkSize q.2 ≤ 526 := by
  intro parts
  induction parts with
  | nil => intro i _ q hq; simp [envPairsAux] at hq
  | cons p rest ih =>
    intro i hlen q hq
    have hq' : q ∈ (numberToChunk (total - i - 1), bufferToChunk p) ::
        envPairsAux total (i + 1) rest := hq
    rcases List.mem_cons.mp hq' with h | h
    · subst h
      have h1 := chunkSize_numberToChunk_le (total - i - 1)
      have h2 := chunkSize_bufferToChunk_le p
      have h3 : p.length ≤ MAX_CHUNK_LEN := hlen p (List.mem_cons_self p rest)
      unfold MAX_CHUNK_LEN at h3
      show chunkSize (numberToChunk (total - i - 1)) + chunkSize (bufferToChunk p) ≤ 526
      omega
    · exact ih (i + 1) (fun x hx => hlen x (List.mem_cons_of_mem _ hx)) q h

theorem envPairs_bound (ct data : List Nat) (hct : ct.length ≤ 520) :
    ∀ q ∈ envPairs ct data, chunkSize q.1 + chunkSize q.2 ≤ 526 := by
  intro q hq
  rcases List.mem_cons.mp hq with h | h
  · subst h
    have h1 := chunkSize_numberToChunk_le (splitParts data).length
    have h2 := chunkSize_bufferToChunk_le ct
    show chunkSize (numberToChunk (splitParts data).length) + chunkSize (bufferToChunk ct) ≤ 526
    omega
  · exact envPairsAux_bound _ _ _ (splitParts_part_le data) q h

theorem packOne_false_spec (ps : List (Chunk × Chunk)) (hne : ps ≠ [])
    (hbound : ∀ q ∈ ps, chunkSize q.1 + chunkSize q.2 ≤ 526) :
    ∃ j, 1 ≤ j ∧ j ≤ ps.length ∧
      packOne false (flatPairs ps) = (flatPairs (ps.take j), flatPairs (ps.drop j)) := by
  obtain ⟨k, hkle, heq, hpos, hover, hunder⟩ := packPieceLoop_spec ps []
  have hk1 : 1 ≤ k := hpos (by simp [scriptSize]) hne
  simp only [List.nil_append] at heq hover hunder
  unfold packOne
  simp only [Bool.false_eq_true, if_false, heq]
  by_cases hov : MAX_PAYLOAD_LEN < scriptSize (flatPairs (ps.take k))
  · rw [if_pos hov]
    have hk2 : 2 ≤ k := by
      by_contra hcon
      have hk : k = 1 := by omega
      subst hk
      obtain ⟨q0, ps', rfl⟩ := List.exists_cons_of_ne_nil hne
      have h1 : (q0 :: ps').take 1 = [q0] := rfl
      rw [h1] at hov
      have hb := hbound q0 (List.mem_cons_self q0 ps')
      have hsz1 : scriptSize (flatPairs [q0]) = chunkSize q0.1 + chunkSize q0.2 := by
        simp [flatPairs, scriptSize]
      rw [hsz1] at hov
      unfold MAX_PAYLOAD_LEN at hov
      omega
    obtain ⟨j, rfl⟩ : ∃ j, k = j + 1 := ⟨k - 1, by omega⟩
    have hksub : j < ps.length := by omega
    have htake : ps.take (j + 1) = ps.take j ++ [ps[j]] := by
      rw [List.take_succ, List.getElem?_eq_getElem hksub]
      rfl
    have hflat : flatPairs (ps.take (j + 1)) =
        flatPairs (ps.take j) ++ [(ps[j]).1, (ps[j]).2] := by
      rw [htake, flatPairs_append]
      rfl
    have hlen1 : (flatPairs (ps.take j)).length = 2 * j := by
      rw [flatPairs_length]
      simp [List.length_take]
      omega
    have hlentot : (flatPairs (ps.take (j + 1))).length = 2 * (j + 1) := by
      rw [flatPairs_length]
      simp [List.length_take]
      omega
    have hidx : (flatPairs (ps.take (j + 1))).length - 2 =
        (flatPairs (ps.take j)).length := by
      omega
    refine ⟨j, by omega, by omega, ?_⟩
    rw [hidx, hflat]
    rw [List.take_left, List.drop_left]
    have hdropj : ps.drop j = ps[j] :: ps.drop (j + 1) := List.drop_eq_getElem_cons hksub
    rw [hdropj, flatPairs_cons]
    rfl
  · rw [if_neg hov]
    exact ⟨k, hk1, hkle, rfl⟩

theorem packOne_true_spec (ordC : Chunk) (ps : List (Chunk × Chunk)) (hne : ps ≠ [])
    (hbound : ∀ q ∈ ps, chunkSize q.1 + chunkSize q.2 ≤ 526)
    (hord : chunkSize ordC ≤ 4) :
    ∃ j, 1 ≤ j ∧ j ≤ ps.length ∧
      packOne true (ordC :: flatPairs ps) =
        (ordC :: flatPairs (ps.take j), flatPairs (ps.drop j)) := by
  obtain ⟨k, hkle, heq, hpos, hover, hunder⟩ := packPieceLoop_spec ps [ordC]
  have hszord : scriptSize [ordC] ≤ MAX_PAYLOAD_LEN := by
    have : scriptSize [ordC] = chunkSize ordC := by simp [scriptSize]
    rw [this]
    unfold MAX_PAYLOAD_LEN
    omega
  have hk1 : 1 ≤ k := hpos hszord hne
  unfold packOne
  have hstart : (ordC :: flatPairs ps).take 1 = [ordC] := rfl
  have hrest : (ordC :: flatPairs ps).drop 1 = flatPairs ps := rfl
  simp only [if_true, hstart, hrest, heq]
  have hconsform : ([ordC] ++ flatPairs (ps.take k)) = ordC :: flatPairs (ps.take k) := rfl
  by_cases hov : MAX_PAYLOAD_LEN < scriptSize (ordC :: flatPairs (ps.take k))
  · rw [hconsform, if_pos hov]
    have hk2 : 2 ≤ k := by
      by_contra hcon
      have hk : k = 1 := by omega
      subst hk
      obtain ⟨q0, ps', rfl⟩ := List.exists_cons_of_ne_nil hne
      have h1 : (q0 :: ps').take 1 = [q0] := rfl
      rw [h1] at hov
      have hb := hbound q0 (List.mem_cons_self q0 ps')
      have hsz1 : scriptSize (ordC :: flatPairs [q0]) =
          chunkSize ordC + (chunkSize q0.1 + chunkSize q0.2) := by
        simp [flatPairs, scriptSize]
      rw [hsz1] at hov
      unfold MAX_PAYLOAD_LEN at hov
      omega
    obtain ⟨j, rfl⟩ : ∃ j, k = j + 1 := ⟨k - 1, by omega⟩
    have hksub : j < ps.length := by omega
    have htake : ps.take (j + 1) = ps.take j ++ [ps[j]] := by
      rw [List.take_succ, List.getElem?_eq_getElem hksub]
      rfl
    have hflat : ordC :: flatPairs (ps.take (j + 1)) =
        (ordC :: flatPairs (ps.take j)) ++ [(ps[j]).1, (ps[j]).2] := by
      rw [htake, flatPairs_append]
      rfl
    have hlen1 : (ordC :: flatPairs (ps.take j)).length = 2 * j + 1 := by
      simp only [List.length_cons, flatPairs_length]
      simp [List.length_take]
      omega
    have hlentot : (ordC :: flatPairs (ps.take (j + 1))).length = 2 * (j + 1) + 1 := by
      simp only [List.length_cons, flatPairs_length]
      simp [List.length_take]
      omega
    have hidx : (ordC :: flatPairs (ps.take (j + 1))).length - 2 =
        (ordC :: flatPairs (ps.take j)).length := by
      omega
    refine ⟨j, by omega, by omega, ?_⟩
    rw [hidx, hflat]
    rw [List.take_left, List.drop_left]
    have hdropj : ps.drop j = ps[j] :: ps.drop (j + 1) := List.drop_eq_getElem_cons hksub
    rw [hdropj, flatPairs_cons]
    rfl
  · rw [hconsform, if_neg hov]
    exact ⟨k, hk1, hkle, rfl⟩

theorem packPieces_false_spec : ∀ (fuel : Nat) (ps : List (Chunk × Chunk)),
    ps.length ≤ fuel →
    (∀ q ∈ ps, chunkSize q.1 + chunkSize q.2 ≤ 526) →
    ∃ segs : List (List (Chunk × Chunk)),
      packPieces fuel false (flatPairs ps) = segs.map flatPairs ∧
      segs.flatten = ps ∧ (∀ s ∈ segs, s ≠ []) := by
  intro fuel
  induction fuel with
  | zero =>
    intro ps hlen _
    have hnil : ps = [] := by
      cases ps
      · rfl
      · simp at hlen
    subst hnil
    exact ⟨[], rfl, rfl, by simp⟩
  | succ fuel ih =>
    intro ps hlen hbound
    rcases ps with _ | ⟨q, ps'⟩
    · exact ⟨[], rfl, rfl, by simp⟩
    · have hne : (q :: ps') ≠ [] := by simp
      obtain ⟨j, hj1, hjle, hjeq⟩ := packOne_false_spec (q :: ps') hne hbound
      have hform : packPieces (fuel + 1) false (flatPairs (q :: ps')) =
          match packOne false (flatPairs (q :: ps')) with
          | (piece, rest) => piece :: packPieces fuel false rest := by
        rw [flatPairs_cons]
        rfl
      rw [hform, hjeq]
      have hlendrop : ((q :: ps').drop j).length ≤ fuel := by
        simp only [List.length_drop]
        simp only [List.length_cons] at hlen ⊢
        omega
      have hbounddrop : ∀ x ∈ (q :: ps').drop j, chunkSize x.1 + chunkSize x.2 ≤ 526 :=
        fun x hx => hbound x (List.mem_of_mem_drop hx)
      obtain ⟨segs, hseq, hsflat, hsne⟩ := ih ((q :: ps').drop j) hlendrop hbounddrop
      refine ⟨(q :: ps').take j :: segs, ?_, ?_, ?_⟩
      · simp only [List.map_cons, hseq]
      · simp only [List.flatten_cons, hsflat]
        exact List.take_append_drop _ _
      · intro s hs
        rcases List.mem_cons.mp hs with h | h
        · subst h
          rw [ne_eq, List.take_eq_nil_iff]
          push_neg
          constructor
          · omega
          · exact hne
        · exact hsne s h

theorem packPieces_true_spec (ordC : Chunk) (ps : List (Chunk × Chunk)) (hne : ps ≠ [])
    (hbound : ∀ q ∈ ps, chunkSize q.1 + chunkSize q.2 ≤ 526)
    (hord : chunkSize ordC ≤ 4) (fuel : Nat) (hfuel : ps.length + 1 ≤ fuel) :
    ∃ (j : Nat) (segs : List (List (Chunk × Chunk))), 1 ≤ j ∧ j ≤ ps.length ∧
      packPieces fuel true (ordC :: flatPairs ps) =
        (ordC :: flatPairs (ps.take j)) :: segs.map flatPairs ∧
      segs.flatten = ps.drop j ∧ (∀ s ∈ segs, s ≠ []) := by
  rcases fuel with _ | fuel
  · omega
  · obtain ⟨j, hj1, hjle, hjeq⟩ := packOne_true_spec ordC ps hne hbound hord
    have hform : packPieces (fuel + 1) true (ordC :: flatPairs ps) =
        match packOne true (ordC :: flatPairs ps) with
        | (piece, rest) => piece :: packPieces fuel false rest := rfl
    have hlendrop : (ps.drop j).length ≤ fuel := by
      simp only [List.length_drop]
      omega
    obtain ⟨segs, hseq, hsflat, hsne⟩ := packPieces_false_spec fuel (ps.drop j) hlendrop
      (fun x hx => hbound x (List.mem_of_mem_drop hx))
    refine ⟨j, segs, hj1, hjle, ?_, hsflat, hsne⟩
    rw [hform, hjeq]
    show (ordC :: flatPairs (ps.take j)) :: packPieces fuel false (flatPairs (ps.drop j)) =
      (ordC :: flatPairs (ps.take j)) :: segs.map flatPairs
    rw [hseq]

/-! ### Spec-modelled asm rendering and the chain walker (C1)

The node's `scriptSig.asm` rendering is external to this repository; the
spec (§6, envelope wire format) fixes it: the genesis assembly begins with
the decimal token `6582895` (the little-endian value of the `"ord"` push),
integer markers appear as decimal tokens, and data chunks as hex tokens. -/

/-- Value of a small script-number chunk as created by `numberToChunk`. -/
def markerValue (c : Chunk) : Nat :=
  if c.opcodenum = 0 then 0
  else if 81 ≤ c.opcodenum ∧ c.opcodenum ≤ 96 then c.opcodenum - 80
  else leValue c.buf

/-- Modelled from the spec: §6 wire format of a non-genesis partial script,
an alternating sequence of decimal marker tokens and hex chunk tokens. -/
def renderPairTokens : List Chunk → List String
  | mc :: dc :: rest => decimalRepr (markerValue mc) :: hexStr dc.buf :: renderPairTokens rest
  | [c] => [hexStr c.buf]
  | [] => []

/-- Modelled from the spec: §6 wire format of the genesis partial script,
`sentinel, numChunks, mimeTypeHex, pairs...`. -/
def renderGenesisTokens : List Chunk → List String
  | o :: nchunks :: ctc :: rest =>
    decimalRepr (leValue o.buf) :: decimalRepr (markerValue nchunks) ::
      hexStr ctc.buf :: renderPairTokens rest
  | short => short.map fun c => hexStr c.buf

/-- The decode-relevant transaction chain built by `inscribe`, one input
token-stream list per transaction, starting at the first envelope-carrying
transaction (the chain's second transaction, whose txid is the inscription
id).  Transaction `i+1` spends output 0 of transaction `i` and carries
partial script `i` followed by the signature and serialized lock-script
pushes; the reveal carries the last partial.  Wallet-funding inputs
(`extraVins`) come after input 0. -/
def chainStreams (contentType data : List Nat) (sig lock : String)
    (extraVins : Nat → List (List String)) : List (List (List String)) :=
  match inscribePieces contentType data with
  | [] => []
  | g :: rest =>
    ((renderGenesisTokens g ++ [sig, lock]) :: extraVins 0) ::
      rest.enum.map fun p => ((renderPairTokens p.2 ++ [sig, lock]) :: extraVins (p.1 + 1))

/-- The per-transaction `vin` loop of `decodeDoginalsChain`
(`src/README.md`): empty assemblies are skipped; on the genesis hop the
first sentinel-headed input is parsed as genesis (non-sentinel inputs are
skipped); afterwards every input is parsed as a subsequent hop. -/
def decodeTxVins : Bool → String → Option String → Bool → List (List String) →
    Except String (Bool × String × Option String × Bool)
  | isGenesis, dataHex, mimeType, endOfData, [] =>
    .ok (isGenesis, dataHex, mimeType, endOfData)
  | isGenesis, dataHex, mimeType, endOfData, asmData :: rest =>
    if asmData.isEmpty then decodeTxVins isGenesis dataHex mimeType endOfData rest
    else if isGenesis then
      if asmData.headD "" = "6582895" then
        match processGenesisAsm asmData with
        | .error e => .error e
        | .ok r => decodeTxVins false (dataHex ++ r.dataHex) (some r.mimeType) r.endOfData rest
      else decodeTxVins isGenesis dataHex mimeType endOfData rest
    else
      let r := processSubsequentAsm asmData
      decodeTxVins isGenesis (dataHex ++ r.dataHex) mimeType (endOfData || r.endOfData) rest

/-- The hop loop of `decodeDoginalsChain`; the block-scanning next-hop
search (`findNextOrdinalTx`, RPC-driven) is abstracted to the successor in
the supplied transaction list, the builder's chain being linear (each
transaction spends output 0 of its predecessor). -/
def decodeChainLoop (maxHops : Nat) :
    Nat → Bool → String → Option String → Bool → List (List (List String)) →
    Except String (String × Option String × Bool)
  | hop, isGenesis, dataHex, mimeType, endOfData, txs =>
    if endOfData || maxHops ≤ hop then .ok (dataHex, mimeType, endOfData)
    else
      match txs with
      | [] => .ok (dataHex, mimeType, endOfData)
      | vins :: rest =>
        match decodeTxVins isGenesis dataHex mimeType endOfData vins with
        | .error e => .error e
        | .ok (g, d, mt, e) =>
          if e then .ok (d, mt, e)
          else decodeChainLoop maxHops (hop + 1) g d mt e rest

/-- Tail of `decodeDoginalsChain`: fail when no data hex was collected,
default the mime type to octet-stream, return the accumulated hex. -/
def decodeDoginalsChain (txs : List (List (List String))) (maxHops : Nat) :
    Except String (String × String) :=
  match decodeChainLoop maxHops 0 true "" none false txs with
  | .error e => .error e
  | .ok (dataHex, mimeType, _) =>
    if dataHex = "" then .error "No Doginals data found in transaction chain."
    else
      let mt := mimeType.getD ""
      .ok (dataHex, if mt = "" then "application/octet-stream" else mt)

/-- The hex-to-bytes step of `reconstructAndReturnBuffer`: when the decoded
hex length is odd and the model-viewer suppression flag is off, five `"0"`
characters are appended (the §9 padding quirk) before `Buffer.from(hex)`. -/
def reconstructBytes (txs : List (List (List String))) (skipOddHexPad : Bool)
    (maxHops : Nat) : Except String (List Nat × String) :=
  match decodeDoginalsChain txs maxHops with
  | .error e => .error e
  | .ok (dataHex0, mimeType) =>
    let dataHex := if !skipOddHexPad && dataHex0.length % 2 ≠ 0
                   then dataHex0 ++ "00000" else dataHex0
    .ok (hexPairsToBytes dataHex.data, mimeType)

/-! ### Chain-walk evaluation lemmas -/

/-- Wire tokens of chunk pairs under the spec-modelled rendering. -/
def tokPairs (qs : List (Chunk × Chunk)) : List (Nat × String) :=
  qs.map fun q => (markerValue q.1, hexStr q.2.buf)

/-- Concatenation of a token list. -/
def strCat : List String → String
  | [] => ""
  | s :: r => s ++ strCat r

theorem strCat_append (a b : List String) : strCat (a ++ b) = strCat a ++ strCat b := by
  induction a with
  | nil => simp [strCat, String.empty_append]
  | cons s r ih =>
    show (s ++ strCat (r ++ b)) = (s ++ strCat r) ++ strCat b
    rw [ih, String.append_assoc]

theorem renderPairTokens_flatPairs (qs : List (Chunk × Chunk)) :
    renderPairTokens (flatPairs qs) = flatTok (tokPairs qs) := by
  induction qs with
  | nil => rfl
  | cons q rest ih =>
    rw [flatPairs_cons]
    show decimalRepr (markerValue q.1) :: hexStr q.2.buf :: renderPairTokens (flatPairs rest) = _
    rw [ih]
    rfl

theorem specConsumePairs_nozero (qs : List (Nat × String)) (h : ∀ q ∈ qs, q.1 ≠ 0) :
    specConsumePairs qs = (strCat (qs.map Prod.snd), qs.length, false) := by
  induction qs with
  | nil => rfl
  | cons q rest ih =>
    have hq : q.1 ≠ 0 := h q (List.mem_cons_self q rest)
    obtain ⟨n, hx⟩ := q
    simp only at hq
    show specConsumePairs ((n, hx) :: rest) = _
    simp only [specConsumePairs, if_neg hq,
      ih fun x hxm => h x (List.mem_cons_of_mem _ hxm)]
    rfl

theorem specConsumePairs_zero_end (qs1 : List (Nat × String)) (hx : String)
    (hnz : ∀ q ∈ qs1, q.1 ≠ 0) :
    specConsumePairs (qs1 ++ [(0, hx)]) =
      (strCat ((qs1 ++ [(0, hx)]).map Prod.snd), qs1.length + 1, true) := by
  induction qs1 with
  | nil =>
    show specConsumePairs [(0, hx)] = _
    simp [specConsumePairs, strCat, String.append_empty]
  | cons q rest ih =>
    have hq : q.1 ≠ 0 := hnz q (List.mem_cons_self q rest)
    obtain ⟨n, hy⟩ := q
    simp only at hq
    show specConsumePairs ((n, hy) :: (rest ++ [(0, hx)])) = _
    simp only [specConsumePairs, if_neg hq,
      ih fun x hxm => hnz x (List.mem_cons_of_mem _ hxm)]
    simp only [List.map_cons, strCat, List.length_cons, List.length_append]
    rfl

theorem processSubsequentAsm_eval (qs : List (Nat × String)) (tail : List String)
    (htail : isIntegerString (tail.headD "") = false) :
    processSubsequentAsm (flatTok qs ++ tail) =
      { dataHex := (specConsumePairs qs).1, endOfData := (specConsumePairs qs).2.2,
        chunksFound := (specConsumePairs qs).2.1, lastNumChunks := specLast qs none } := by
  unfold processSubsequentAsm
  rw [asmPairLoop_spec qs tail htail "" 0 none]
  simp only [String.empty_append, Nat.zero_add]

theorem processSubsequentAsm_break (asmData : List String)
    (hnon : isIntegerString (asmData.headD "") = false) :
    processSubsequentAsm asmData =
      { dataHex := "", endOfData := false, chunksFound := 0, lastNumChunks := none } := by
  unfold processSubsequentAsm
  rcases asmData with _ | ⟨t, rest⟩
  · rfl
  · have ht : isIntegerString t = false := by simpa using hnon
    show (match asmPairLoop "" 0 none (t :: rest) with
      | (dataHex, chunksFound, lastNumChunks, endOfData) =>
        SubsequentResult.mk dataHex endOfData chunksFound lastNumChunks) = _
    unfold asmPairLoop
    rw [ht]
    simp

theorem decodeTxVins_extras (extras : List (List String))
    (hext : ∀ v ∈ extras, isIntegerString (v.headD "") = false) :
    ∀ (d : String) (mt : Option String) (e : Bool),
      decodeTxVins false d mt e extras = .ok (false, d, mt, e) := by
  induction extras with
  | nil => intro d mt e; rfl
  | cons v rest ih =>
    intro d mt e
    have hv := hext v (List.mem_cons_self v rest)
    have hrest : ∀ x ∈ rest, isIntegerString (x.headD "") = false :=
      fun x hx => hext x (List.mem_cons_of_mem _ hx)
    show decodeTxVins false d mt e (v :: rest) = _
    unfold decodeTxVins
    by_cases hve : v.isEmpty
    · rw [if_pos hve]
      exact ih hrest d mt e
    · rw [if_neg hve]
      simp only [Bool.false_eq_true, if_false]
      rw [processSubsequentAsm_break v hv]
      simp only [String.append_empty, Bool.or_false]
      exact ih hrest d mt e

theorem decodeTxVins_subseq (qs : List (Nat × String)) (extras : List (List String))
    (sig lock : String) (hsig : isIntegerString sig = false)
    (hext : ∀ v ∈ extras, isIntegerString (v.headD "") = false)
    (d : String) (mt : Option String) :
    decodeTxVins false d mt false ((flatTok qs ++ [sig, lock]) :: extras) =
      .ok (false, d ++ (specConsumePairs qs).1, mt, (specConsumePairs qs).2.2) := by
  have hne : (flatTok qs ++ [sig, lock]).isEmpty = false := by
    simp [List.isEmpty_iff]
  show decodeTxVins false d mt false ((flatTok qs ++ [sig, lock]) :: extras) = _
  unfold decodeTxVins
  rw [hne]
  simp only [Bool.false_eq_true, if_false]
  have htail : isIntegerString (([sig, lock] : List String).headD "") = false := by
    simpa using hsig
  rw [processSubsequentAsm_eval qs [sig, lock] htail]
  simp only [Bool.false_or]
  exact decodeTxVins_extras extras hext (d ++ (specConsumePairs qs).1) mt _

/-- The mime type produced by the genesis parser for mime hex token `m`. -/
def genMime (m : String) : String :=
  if hexToAscii m = "" then "application/octet-stream" else hexToAscii m

theorem decodeTxVins_genesis (r : Nat) (m : String) (qs : List (Nat × String))
    (extras : List (List String)) (sig lock : String)
    (hsig : isIntegerString sig = false)
    (hext : ∀ v ∈ extras, isIntegerString (v.headD "") = false)
    (mt0 : Option String) :
    decodeTxVins true "" mt0 false
        (("6582895" :: decimalRepr r :: m :: (flatTok qs ++ [sig, lock])) :: extras) =
      .ok (false, (specConsumePairs qs).1, some (genMime m), (specConsumePairs qs).2.2) := by
  show decodeTxVins true "" mt0 false _ = _
  unfold decodeTxVins
  have hne : ("6582895" :: decimalRepr r :: m :: (flatTok qs ++ [sig, lock])).isEmpty = false := rfl
  rw [hne]
  simp only [Bool.false_eq_true, if_false, if_true, List.headD_cons, if_pos rfl]
  have htail : isIntegerString (([sig, lock] : List String).headD "") = false := by
    simpa using hsig
  rw [processGenesisAsm_eval "6582895" m r qs [sig, lock] htail]
  show decodeTxVins false ("" ++ (specConsumePairs qs).1) (some (genMime m))
      (specConsumePairs qs).2.2 extras = _
  rw [String.empty_append]
  exact decodeTxVins_extras extras hext _ _ _

/-- Relation between one transaction's input streams and its token-pair
segment: input 0 is the rendered partial followed by signature and lock
pushes, the remaining inputs are funding inputs whose first token is not an
integer token. -/
def SegStreamRel (sig lock : String) (vins : List (List String))
    (seg : List (Nat × String)) : Prop :=
  ∃ extras, vins = (flatTok seg ++ [sig, lock]) :: extras ∧
    ∀ v ∈ extras, isIntegerString (v.headD "") = false

/-- Envelope-shaped segment lists: every marker is nonzero except the very
last one, which is zero (the end-of-data marker). -/
inductive SegsOk : List (List (Nat × String)) → Prop
  | final (qs1 : List (Nat × String)) (hx : String) (hnz : ∀ q ∈ qs1, q.1 ≠ 0) :
      SegsOk [qs1 ++ [(0, hx)]]
  | more (seg : List (Nat × String)) (rest : List (List (Nat × String)))
      (hnz : ∀ q ∈ seg, q.1 ≠ 0) (hr : SegsOk rest) : SegsOk (seg :: rest)

theorem decodeChainLoop_cons_ok (maxHops hop : Nat) (hcap : hop < maxHops)
    (isGenesis g : Bool) (d d2 : String) (mt mt2 : Option String) (e : Bool)
    (vins : List (List String)) (rest : List (List (List String)))
    (hv : decodeTxVins isGenesis d mt false vins = .ok (g, d2, mt2, e)) :
    decodeChainLoop maxHops hop isGenesis d mt false (vins :: rest) =
      if e then .ok (d2, mt2, e) else decodeChainLoop maxHops (hop + 1) g d2 mt2 e rest := by
  have hc : ¬ ((false || decide (maxHops ≤ hop)) = true) := by
    simp only [Bool.false_or, decide_eq_true_eq]
    omega
  show (if (false || decide (maxHops ≤ hop)) = true then Except.ok (d, mt, false)
       else match vins :: rest with
         | [] => Except.ok (d, mt, false)
         | vins2 :: rest2 =>
           match decodeTxVins isGenesis d mt false vins2 with
           | Except.error e => Except.error e
           | Except.ok (g2, d2, mt2, e2) =>
             if e2 then Except.ok (d2, mt2, e2)
             else decodeChainLoop maxHops (hop + 1) g2 d2 mt2 e2 rest2) = _
  rw [if_neg hc]
  show (match decodeTxVins isGenesis d mt false vins with
       | Except.error e => Except.error e
       | Except.ok (g2, d2, mt2, e2) =>
         if e2 then Except.ok (d2, mt2, e2)
         else decodeChainLoop maxHops (hop + 1) g2 d2 mt2 e2 rest) = _
  rw [hv]

theorem decodeChainLoop_segsOk (maxHops : Nat) (sig lock : String)
    (hsig : isIntegerString sig = false) :
    ∀ (segs : List (List (Nat × String))), SegsOk segs →
    ∀ (streams : List (List (List String))),
      List.Forall₂ (SegStreamRel sig lock) streams segs →
    ∀ (hop : Nat), hop + streams.length ≤ maxHops →
    ∀ (d : String) (mt : Option String),
      decodeChainLoop maxHops hop false d mt false streams =
        .ok (d ++ strCat (segs.flatten.map Prod.snd), mt, true) := by
  intro segs hok
  induction hok with
  | final qs1 hx hnz =>
    intro streams hrel hop hhop d mt
    cases hrel with
    | cons hs htl =>
      cases htl
      obtain ⟨extras, hveq, hext⟩ := hs
      subst hveq
      have hcap : hop < maxHops := by
        simp only [List.length_cons, List.length_nil] at hhop
        omega
      have hv0 := decodeTxVins_subseq (qs1 ++ [(0, hx)]) extras sig lock hsig hext d mt
      rw [specConsumePairs_zero_end qs1 hx hnz] at hv0
      have hv : decodeTxVins false d mt false
          ((flatTok (qs1 ++ [(0, hx)]) ++ [sig, lock]) :: extras) =
          .ok (false, d ++ strCat ((qs1 ++ [(0, hx)]).map Prod.snd), mt, true) := hv0
      rw [decodeChainLoop_cons_ok maxHops hop hcap false false d _ mt mt true _ _ hv]
      simp
  | more seg rest hnz hr ih =>
    intro streams hrel hop hhop d mt
    cases hrel with
    | cons hs htl =>
      obtain ⟨extras, hveq, hext⟩ := hs
      subst hveq
      have hcap : hop < maxHops := by
        simp only [List.length_cons] at hhop
        omega
      have hv0 := decodeTxVins_subseq seg extras sig lock hsig hext d mt
      rw [specConsumePairs_nozero seg hnz] at hv0
      have hv : decodeTxVins false d mt false
          ((flatTok seg ++ [sig, lock]) :: extras) =
          .ok (false, d ++ strCat (seg.map Prod.snd), mt, false) := hv0
      rw [decodeChainLoop_cons_ok maxHops hop hcap false false d _ mt mt false _ _ hv]
      simp only [Bool.false_eq_true, if_false]
      rw [ih _ htl (hop + 1) (by simp only [List.length_cons] at hhop; omega)
        (d ++ strCat (seg.map Prod.snd)) mt]
      rw [List.flatten_cons, List.map_append, strCat_append, String.append_assoc]

/-- Shape of the full envelope: the genesis piece's pairs either already end
with the zero marker (single-piece chain, no further transactions) or are
zero-free with the remaining segments forming a `SegsOk` chain. -/
inductive ChainOk : List (Nat × String) → List (List (Nat × String)) → Prop
  | fin (qs1 : List (Nat × String)) (hx : String) (hnz : ∀ q ∈ qs1, q.1 ≠ 0) :
      ChainOk (qs1 ++ [(0, hx)]) []
  | go (qs0 : List (Nat × String)) (hnz : ∀ q ∈ qs0, q.1 ≠ 0)
      (segs : List (List (Nat × String))) (hs : SegsOk segs) : ChainOk qs0 segs

theorem decodeChainLoop_chain (maxHops : Nat) (sig lock : String)
    (hsig : isIntegerString sig = false)
    (qs0 : List (Nat × String)) (segs : List (List (Nat × String)))
    (hchain : ChainOk qs0 segs)
    (streams2 : List (List (List String)))
    (hrel : List.Forall₂ (SegStreamRel sig lock) streams2 segs)
    (genExtras : List (List String))
    (hgen : ∀ v ∈ genExtras, isIntegerString (v.headD "") = false)
    (r : Nat) (m : String)
    (hhop : 1 + streams2.length ≤ maxHops) :
    decodeChainLoop maxHops 0 true "" none false
        ((("6582895" :: decimalRepr r :: m :: (flatTok qs0 ++ [sig, lock])) :: genExtras)
          :: streams2) =
      .ok (strCat (qs0.map Prod.snd) ++ strCat (segs.flatten.map Prod.snd),
           some (genMime m), true) := by
  cases hchain with
  | fin qs1 hx hnz =>
    cases hrel
    have hv0 := decodeTxVins_genesis r m (qs1 ++ [(0, hx)]) genExtras sig lock hsig hgen none
    rw [specConsumePairs_zero_end qs1 hx hnz] at hv0
    have hv : decodeTxVins true "" none false
        (("6582895" :: decimalRepr r :: m ::
          (flatTok (qs1 ++ [(0, hx)]) ++ [sig, lock])) :: genExtras) =
        .ok (false, strCat ((qs1 ++ [(0, hx)]).map Prod.snd), some (genMime m), true) := hv0
    rw [decodeChainLoop_cons_ok maxHops 0 (by omega) true false "" _ none
      (some (genMime m)) true _ _ hv]
    simp [strCat, String.append_empty]
  | go qs0 hnz segs hs =>
    have hv0 := decodeTxVins_genesis r m qs0 genExtras sig lock hsig hgen none
    rw [specConsumePairs_nozero qs0 hnz] at hv0
    have hv : decodeTxVins true "" none false
        (("6582895" :: decimalRepr r :: m ::
          (flatTok qs0 ++ [sig, lock])) :: genExtras) =
        .ok (false, strCat (qs0.map Prod.snd), some (genMime m), false) := hv0
    rw [decodeChainLoop_cons_ok maxHops 0 (by omega) true false "" _ none
      (some (genMime m)) false _ _ hv]
    simp only [Bool.false_eq_true, if_false]
    exact decodeChainLoop_segsOk maxHops sig lock hsig segs hs streams2 hrel 1
      (by omega) (strCat (qs0.map Prod.snd)) (some (genMime m))

/-! ### Builder-side token structure -/

theorem markerValue_numberToChunk {n : Nat} (h : n < 65536) :
    markerValue (numberToChunk n) = n := by
  by_cases h0 : n = 0
  · subst h0; decide
  · by_cases h16 : n ≤ 16
    · have he : numberToChunk n = ⟨[], 0, 80 + n⟩ := by
        simp [numberToChunk, if_pos h16, if_neg h0]
      rw [he]
      unfold markerValue
      have e0 : ¬ (80 + n = 0) := by omega
      have e1 : 81 ≤ 80 + n ∧ 80 + n ≤ 96 := by omega
      simp only [if_neg e0, if_pos e1]
      omega
    · by_cases h128 : n < 128
      · have he : numberToChunk n = ⟨[n], 1, 1⟩ := by
          simp [numberToChunk, if_neg h16, if_pos h128, if_neg h0]
        rw [he]
        unfold markerValue
        have e0 : ¬ ((1 : Nat) = 0) := by omega
        have e1 : ¬ (81 ≤ (1 : Nat) ∧ (1 : Nat) ≤ 96) := by omega
        simp only [if_neg e0, if_neg e1]
        simp [leValue]
      · have he : numberToChunk n = ⟨[n % 256, n / 256 % 256], 2, 2⟩ := by
          simp [numberToChunk, if_neg h16, if_neg h128, if_neg h0]
        rw [he]
        unfold markerValue
        have e0 : ¬ ((2 : Nat) = 0) := by omega
        have e1 : ¬ (81 ≤ (2 : Nat) ∧ (2 : Nat) ≤ 96) := by omega
        simp only [if_neg e0, if_neg e1]
        simp only [leValue, List.foldr_cons, List.foldr_nil]
        have hq : n / 256 < 256 := by omega
        have hqq : n / 256 % 256 = n / 256 := Nat.mod_eq_of_lt hq
        rw [hqq]
        have hdm := Nat.div_add_mod n 256
        omega

theorem tokPairs_append (a b : List (Chunk × Chunk)) :
    tokPairs (a ++ b) = tokPairs a ++ tokPairs b := by
  unfold tokPairs
  rw [List.map_append]

theorem tokPairs_take (l : List (Chunk × Chunk)) (n : Nat) :
    tokPairs (l.take n) = (tokPairs l).take n := by
  unfold tokPairs
  rw [List.map_take]

theorem tokPairs_drop (l : List (Chunk × Chunk)) (n : Nat) :
    tokPairs (l.drop n) = (tokPairs l).drop n := by
  unfold tokPairs
  rw [List.map_drop]

theorem tokPairs_flatten (L : List (List (Chunk × Chunk))) :
    (L.map tokPairs).flatten = tokPairs L.flatten := by
  induction L with
  | nil => rfl
  | cons s rest ih =>
    simp only [List.map_cons, List.flatten_cons, ih, tokPairs_append]

theorem envPairsAux_length (total : Nat) : ∀ (parts : List (List Nat)) (i : Nat),
    (envPairsAux total i parts).length = parts.length := by
  intro parts
  induction parts with
  | nil => intro i; rfl
  | cons p rest ih =>
    intro i
    show (envPairsAux total i (p :: rest)).length = _
    unfold envPairsAux
    simp only [List.length_cons, ih]

theorem tokPairs_envPairsAux_snd (total : Nat) : ∀ (parts : List (List Nat)) (i : Nat),
    (tokPairs (envPairsAux total i parts)).map Prod.snd = parts.map (fun p => hexStr p) := by
  intro parts
  induction parts with
  | nil => intro i; rfl
  | cons p rest ih =>
    intro i
    show (tokPairs ((numberToChunk (total - i - 1), bufferToChunk p) ::
      envPairsAux total (i + 1) rest)).map Prod.snd = _
    unfold tokPairs
    simp only [List.map_cons]
    show hexStr (bufferToChunk p).buf :: _ = hexStr p :: _
    have hb : (bufferToChunk p).buf = p := rfl
    rw [hb]
    congr 1
    exact ih (i + 1)

theorem tokPairs_envPairsAux_split (total : Nat) (htot : total < 65536) :
    ∀ (parts : List (List Nat)) (i : Nat), i + parts.length = total → parts ≠ [] →
    ∃ (T' : List (Nat × String)) (hx : String), (∀ q ∈ T', q.1 ≠ 0) ∧
      tokPairs (envPairsAux total i parts) = T' ++ [(0, hx)] := by
  intro parts
  induction parts with
  | nil => intro i _ hne; exact absurd rfl hne
  | cons p rest ih =>
    intro i hsum _
    rcases rest with _ | ⟨p2, rest2⟩
    · have hm : total - i - 1 = 0 := by
        simp only [List.length_cons, List.length_nil] at hsum
        omega
      refine ⟨[], hexStr p, by simp, ?_⟩
      show tokPairs [(numberToChunk (total - i - 1), bufferToChunk p)] = _
      unfold tokPairs
      simp only [List.map_cons, List.map_nil, List.nil_append]
      rw [hm]
      have hmv : markerValue (numberToChunk 0) = 0 := by decide
      rw [hmv]
      rfl
    · have hmne : total - i - 1 ≠ 0 := by
        simp only [List.length_cons] at hsum
        omega
      have hmlt : total - i - 1 < 65536 := by omega
      obtain ⟨T'', hx, hnz, heq⟩ := ih (i + 1)
        (by simp only [List.length_cons] at hsum ⊢; omega) (by simp)
      refine ⟨(total - i - 1, hexStr p) :: T'', hx, ?_, ?_⟩
      · intro q hq
        rcases List.mem_cons.mp hq with h | h
        · subst h
          simpa using hmne
        · exact hnz q h
      · show tokPairs ((numberToChunk (total - i - 1), bufferToChunk p) ::
          envPairsAux total (i + 1) (p2 :: rest2)) = _
        unfold tokPairs
        simp only [List.map_cons]
        unfold tokPairs at heq
        rw [markerValue_numberToChunk hmlt]
        rw [heq]
        rfl

theorem hexOfBytes_append (a b : List Nat) :
    hexOfBytes (a ++ b) = hexOfBytes a ++ hexOfBytes b := by
  unfold hexOfBytes
  rw [List.flatMap_append]

theorem hexStr_append (a b : List Nat) : hexStr (a ++ b) = hexStr a ++ hexStr b := by
  unfold hexStr
  rw [hexOfBytes_append]
  rfl

theorem strCat_hexStr_parts : ∀ parts : List (List Nat),
    strCat (parts.map fun p => hexStr p) = hexStr parts.flatten := by
  intro parts
  induction parts with
  | nil => rfl
  | cons p rest ih =>
    simp only [List.map_cons, strCat, List.flatten_cons, ih, hexStr_append]

theorem hexOfBytes_length (bs : List Nat) : (hexOfBytes bs).length = 2 * bs.length := by
  induction bs with
  | nil => rfl
  | cons b rest ih =>
    show (hexDigitChar (b / 16) :: hexDigitChar (b % 16) :: hexOfBytes rest).length = _
    simp only [List.length_cons, ih]
    omega

theorem hexStr_ne_empty (bs : List Nat) (h : bs ≠ []) : hexStr bs ≠ "" := by
  intro hcon
  have hd : hexOfBytes bs = [] := by
    have : (hexStr bs).data = ("" : String).data := by rw [hcon]
    simpa [hexStr] using this
  have hlen := hexOfBytes_length bs
  rw [hd] at hlen
  simp at hlen
  exact h hlen

theorem asciiOfBytes_ne_empty (bs : List Nat) (h : bs ≠ []) : asciiOfBytes bs ≠ "" := by
  intro hcon
  have hd : bs.map (fun b => Char.ofNat b) = [] := by
    have : (asciiOfBytes bs).data = ("" : String).data := by rw [hcon]
    simpa [asciiOfBytes] using this
  rw [List.map_eq_nil_iff] at hd
  exact h hd

theorem genMime_ne_empty (m : String) : genMime m ≠ "" := by
  unfold genMime
  by_cases h : hexToAscii m = ""
  · rw [if_pos h]; decide
  · rw [if_neg h]; exact h

theorem flatten_nil_of_nonempty {α : Type} (L : List (List α))
    (h : ∀ s ∈ L, s ≠ []) (hf : L.flatten = []) : L = [] := by
  rcases L with _ | ⟨s, rest⟩
  · rfl
  · exfalso
    simp only [List.flatten_cons, List.append_eq_nil] at hf
    exact h s (List.mem_cons_self s rest) hf.1

theorem split_zero_prefix (seg A T' : List (Nat × String)) (hx : String)
    (heq : seg ++ A = T' ++ [(0, hx)]) (hnz : ∀ q ∈ T', q.1 ≠ 0) (hA : A ≠ []) :
    (∀ q ∈ seg, q.1 ≠ 0) ∧ A = T'.drop seg.length ++ [(0, hx)] := by
  have hlenA : 1 ≤ A.length := by
    rcases A with _ | _
    · exact absurd rfl hA
    · simp
  have hlen : seg.length ≤ T'.length := by
    have hl := congrArg List.length heq
    simp only [List.length_append, List.length_cons, List.length_nil] at hl
    omega
  have hseg : seg = T'.take seg.length := by
    have h1 : (seg ++ A).take seg.length = seg := List.take_left seg A
    rw [heq] at h1
    rw [List.take_append_of_le_length hlen] at h1
    exact h1.symm
  refine ⟨?_, ?_⟩
  · intro q hq
    rw [hseg] at hq
    exact hnz q (List.mem_of_mem_take hq)
  · have h2 : (seg ++ A).drop seg.length = A := List.drop_left seg A
    rw [heq] at h2
    rw [List.drop_append_of_le_length hlen] at h2
    exact h2.symm

theorem segsOk_of_flatten : ∀ (segs : List (List (Nat × String)))
    (T' : List (Nat × String)) (hx : String),
    (∀ s ∈ segs, s ≠ []) → (∀ q ∈ T', q.1 ≠ 0) →
    segs.flatten = T' ++ [(0, hx)] → segs ≠ [] → SegsOk segs := by
  intro segs
  induction segs with
  | nil => intro T' hx _ _ _ hne; exact absurd rfl hne
  | cons s rest ih =>
    intro T' hx hne hnz hflat _
    rcases rest with _ | ⟨r2, rest2⟩
    · have hs : s = T' ++ [(0, hx)] := by simpa using hflat
      rw [hs]
      exact SegsOk.final T' hx hnz
    · have hrne : (r2 :: rest2).flatten ≠ [] := by
        intro hcon
        have hr2 : r2 ≠ [] := hne r2 (by simp)
        simp only [List.flatten_cons, List.append_eq_nil] at hcon
        exact hr2 hcon.1
      have hflat2 : s ++ (r2 :: rest2).flatten = T' ++ [(0, hx)] := by
        simpa [List.flatten_cons] using hflat
      obtain ⟨hsz, hrest⟩ := split_zero_prefix s _ T' hx hflat2 hnz hrne
      refine SegsOk.more s _ hsz ?_
      exact ih (T'.drop s.length) hx
        (fun x hxm => hne x (List.mem_cons_of_mem _ hxm))
        (fun q hq => hnz q (List.mem_of_mem_drop hq))
        hrest (by simp)

theorem streams_rel (sig lock : String) (extraVins : Nat → List (List String))
    (hext : ∀ i, ∀ v ∈ extraVins i, isIntegerString (v.headD "") = false) :
    ∀ (segsC : List (List (Chunk × Chunk))) (off : Nat),
      List.Forall₂ (SegStreamRel sig lock)
        (((segsC.map flatPairs).enumFrom off).map fun p =>
          (renderPairTokens p.2 ++ [sig, lock]) :: extraVins (p.1 + 1))
        (segsC.map tokPairs) := by
  intro segsC
  induction segsC with
  | nil => intro off; exact List.Forall₂.nil
  | cons s rest ih =>
    intro off
    show List.Forall₂ _
      (((off, flatPairs s) :: (rest.map flatPairs).enumFrom (off + 1)).map fun p =>
        (renderPairTokens p.2 ++ [sig, lock]) :: extraVins (p.1 + 1))
      (tokPairs s :: rest.map tokPairs)
    simp only [List.map_cons]
    refine List.Forall₂.cons ?_ (ih (off + 1))
    exact ⟨extraVins (off + 1), by rw [renderPairTokens_flatPairs], hext (off + 1)⟩

theorem hexToAscii_hexStr (bs : List Nat) (h : ∀ b ∈ bs, b < 256) :
    hexToAscii (hexStr bs) = asciiOfBytes bs := by
  unfold hexToAscii hexStr
  rw [show (String.mk (hexOfBytes bs)).data = hexOfBytes bs from rfl]
  rw [hexPairsToBytes_hexOfBytes h]

theorem sentinel_token : decimalRepr (leValue ordBytes) = "6582895" := by decide

theorem envPairs_length (ct data : List Nat) :
    (envPairs ct data).length = (splitParts data).length + 1 := by
  unfold envPairs
  simp only [List.length_cons, envPairsAux_length]

theorem tokPairs_length (qs : List (Chunk × Chunk)) :
    (tokPairs qs).length = qs.length := by
  unfold tokPairs
  exact List.length_map qs _

/-- C1: round-trip of the inscription protocol.  For every non-empty payload
`data` and content type `ct` (within the `mint` guard of 520 bytes), the
transaction chain produced by `inscribe`, rendered to input-script token
streams by the spec-modelled wire format (§6) and re-decoded by
`decodeDoginalsChain` followed by the hex-to-bytes step of
`reconstructAndReturnBuffer`, yields exactly the bytes of `data` (the
odd-hex padding quirk of §9 never fires on a faithful decode, whose hex has
even length).  The signature and lock tokens and any funding-input streams
are abstract, constrained only not to look like integer tokens; the size
hypotheses keep the chain inside the source's `maxHops` cap and the
two-byte marker encoding. -/
theorem c1_envelope_roundtrip
    (data ct : List Nat) (sig lock : String)
    (extraVins : Nat → List (List String))
    (hdata : ∀ b ∈ data, b < 256) (hne : data ≠ [])
    (hct : ∀ b ∈ ct, b < 256) (hctlen : ct.length ≤ 520)
    (hsig : isIntegerString sig = false)
    (hextra : ∀ i, ∀ v ∈ extraVins i, isIntegerString (v.headD "") = false)
    (hparts : (splitParts data).length < 65536)
    (hpieces : (inscribePieces ct data).length ≤ 20000) :
    reconstructBytes (chainStreams ct data sig lock extraVins) false 20000 =
      .ok (data, if ct = [] then "application/octet-stream" else asciiOfBytes ct) := by
  have hpne : splitParts data ≠ [] := splitParts_ne_nil data hne
  have hLpos : 1 ≤ (splitParts data).length := by
    rcases hsp : splitParts data with _ | _
    · exact absurd hsp hpne
    · simp
  have hbound := envPairs_bound ct data hctlen
  have hpsne : envPairs ct data ≠ [] := by unfold envPairs; simp
  have hord : chunkSize (bufferToChunk ordBytes) ≤ 4 := by decide
  have hfuel : (envPairs ct data).length + 1 ≤ (inscriptionChunks ct data).length := by
    rw [inscriptionChunks_eq]
    simp only [List.length_cons, flatPairs_length]
    omega
  obtain ⟨j, segsC, hj1, hjle, hpack, hsflat, hsne⟩ :=
    packPieces_true_spec (bufferToChunk ordBytes) (envPairs ct data) hpsne hbound hord
      (inscriptionChunks ct data).length hfuel
  have hpieceseq : inscribePieces ct data =
      (bufferToChunk ordBytes :: flatPairs ((envPairs ct data).take j)) ::
        segsC.map flatPairs := by
    show packPieces (inscriptionChunks ct data).length true (inscriptionChunks ct data) = _
    nth_rewrite 2 [inscriptionChunks_eq ct data]
    exact hpack
  obtain ⟨j2, rfl⟩ : ∃ j2, j = j2 + 1 := ⟨j - 1, by omega⟩
  have hj2le : j2 ≤ (splitParts data).length := by
    rw [envPairs_length] at hjle
    omega
  have htakeps : (envPairs ct data).take (j2 + 1) =
      (numberToChunk (splitParts data).length, bufferToChunk ct) ::
        (envPairsAux (splitParts data).length 0 (splitParts data)).take j2 := rfl
  have hdropps : (envPairs ct data).drop (j2 + 1) =
      (envPairsAux (splitParts data).length 0 (splitParts data)).drop j2 := rfl
  have hgenTokens : renderGenesisTokens
      (bufferToChunk ordBytes :: flatPairs ((envPairs ct data).take (j2 + 1))) =
      "6582895" :: decimalRepr (markerValue (numberToChunk (splitParts data).length)) ::
        hexStr ct :: flatTok (tokPairs
          ((envPairsAux (splitParts data).length 0 (splitParts data)).take j2)) := by
    rw [htakeps, flatPairs_cons]
    show decimalRepr (leValue (bufferToChunk ordBytes).buf) :: _ = _
    rw [show (bufferToChunk ordBytes).buf = ordBytes from rfl, sentinel_token]
    rw [renderPairTokens_flatPairs]
    rfl
  have hstreams : chainStreams ct data sig lock extraVins =
      ((renderGenesisTokens (bufferToChunk ordBytes ::
          flatPairs ((envPairs ct data).take (j2 + 1))) ++ [sig, lock]) :: extraVins 0) ::
        ((segsC.map flatPairs).enum.map fun p =>
          ((renderPairTokens p.2 ++ [sig, lock]) :: extraVins (p.1 + 1))) := by
    unfold chainStreams
    rw [hpieceseq]
  have hchainstreams : chainStreams ct data sig lock extraVins =
      (("6582895" :: decimalRepr (markerValue (numberToChunk (splitParts data).length)) ::
          hexStr ct :: (flatTok (tokPairs
            ((envPairsAux (splitParts data).length 0 (splitParts data)).take j2)) ++
            [sig, lock])) :: extraVins 0) ::
        ((segsC.map flatPairs).enum.map fun p =>
          ((renderPairTokens p.2 ++ [sig, lock]) :: extraVins (p.1 + 1))) := by
    rw [hstreams, hgenTokens]
    simp [List.cons_append]
  obtain ⟨T', hx, hnzT, hdp⟩ := tokPairs_envPairsAux_split (splitParts data).length hparts
    (splitParts data) 0 (by omega) hpne
  have hTlen : T'.length + 1 = (splitParts data).length := by
    have h1 := congrArg List.length hdp
    rw [tokPairs_length, envPairsAux_length] at h1
    simp only [List.length_append, List.length_cons, List.length_nil] at h1
    omega
  have hsegflatten : (segsC.map tokPairs).flatten =
      (tokPairs (envPairsAux (splitParts data).length 0 (splitParts data))).drop j2 := by
    rw [tokPairs_flatten, hsflat, hdropps, tokPairs_drop]
  have hchain : ChainOk
      (tokPairs ((envPairsAux (splitParts data).length 0 (splitParts data)).take j2))
      (segsC.map tokPairs) := by
    by_cases hfull : j2 < (splitParts data).length
    · -- more transactions follow the genesis piece
      have hj2T : j2 ≤ T'.length := by omega
      have hqs0 : tokPairs ((envPairsAux (splitParts data).length 0 (splitParts data)).take j2) =
          T'.take j2 := by
        rw [tokPairs_take, hdp, List.take_append_of_le_length hj2T]
      have hdropT : (segsC.map tokPairs).flatten = T'.drop j2 ++ [(0, hx)] := by
        rw [hsegflatten, hdp, List.drop_append_of_le_length hj2T]
      have hsegTne : ∀ s ∈ segsC.map tokPairs, s ≠ [] := by
        intro s hs
        obtain ⟨s0, hs0, rfl⟩ := List.mem_map.mp hs
        have := hsne s0 hs0
        simp only [ne_eq, tokPairs, List.map_eq_nil_iff]
        exact this
      have hsegsCne : segsC.map tokPairs ≠ [] := by
        intro hcon
        have hflat0 : (segsC.map tokPairs).flatten = [] := by rw [hcon]; rfl
        rw [hdropT] at hflat0
        simp at hflat0
      rw [hqs0]
      exact ChainOk.go (T'.take j2)
        (fun q hq => hnzT q (List.mem_of_mem_take hq))
        (segsC.map tokPairs)
        (segsOk_of_flatten (segsC.map tokPairs) (T'.drop j2) hx hsegTne
          (fun q hq => hnzT q (List.mem_of_mem_drop hq)) hdropT hsegsCne)
    · -- single-piece chain: the genesis piece carries the zero marker
      have hj2eq : j2 = (splitParts data).length := by omega
      have htakeall : (envPairsAux (splitParts data).length 0 (splitParts data)).take j2 =
          envPairsAux (splitParts data).length 0 (splitParts data) := by
        apply List.take_of_length_le
        rw [envPairsAux_length]
        omega
      have hdropall : (segsC.map tokPairs).flatten = [] := by
        rw [hsegflatten]
        apply List.drop_eq_nil_of_le
        rw [tokPairs_length, envPairsAux_length]
        omega
      have hsegTne : ∀ s ∈ segsC.map tokPairs, s ≠ [] := by
        intro s hs
        obtain ⟨s0, hs0, rfl⟩ := List.mem_map.mp hs
        have := hsne s0 hs0
        simp only [ne_eq, tokPairs, List.map_eq_nil_iff]
        exact this
      have hnilsegs : segsC.map tokPairs = [] :=
        flatten_nil_of_nonempty _ hsegTne hdropall
      rw [htakeall, hdp, hnilsegs]
      exact ChainOk.fin T' hx hnzT
  have hrel := streams_rel sig lock extraVins hextra segsC 0
  have hlenstreams : (((segsC.map flatPairs).enum.map fun p =>
      ((renderPairTokens p.2 ++ [sig, lock]) :: extraVins (p.1 + 1)))).length =
      segsC.length := by
    rw [List.length_map, List.enum_length, List.length_map]
  have hhop : 1 + (((segsC.map flatPairs).enum.map fun p =>
      ((renderPairTokens p.2 ++ [sig, lock]) :: extraVins (p.1 + 1)))).length ≤ 20000 := by
    rw [hlenstreams]
    rw [hpieceseq] at hpieces
    simp only [List.length_cons, List.length_map] at hpieces
    omega
  have hdecode := decodeChainLoop_chain 20000 sig lock hsig
    (tokPairs ((envPairsAux (splitParts data).length 0 (splitParts data)).take j2))
    (segsC.map tokPairs) hchain
    ((segsC.map flatPairs).enum.map fun p =>
      ((renderPairTokens p.2 ++ [sig, lock]) :: extraVins (p.1 + 1)))
    hrel (extraVins 0) (hextra 0)
    (markerValue (numberToChunk (splitParts data).length)) (hexStr ct) hhop
  -- the accumulated hex is exactly the hex of the payload
  have happend : tokPairs ((envPairsAux (splitParts data).length 0 (splitParts data)).take j2) ++
      (segsC.map tokPairs).flatten =
      tokPairs (envPairsAux (splitParts data).length 0 (splitParts data)) := by
    rw [hsegflatten, tokPairs_take]
    exact List.take_append_drop _ _
  have hcat : strCat ((tokPairs ((envPairsAux (splitParts data).length 0
        (splitParts data)).take j2)).map Prod.snd) ++
      strCat (((segsC.map tokPairs).flatten).map Prod.snd) = hexStr data := by
    rw [← strCat_append, ← List.map_append, happend]
    rw [tokPairs_envPairsAux_snd, strCat_hexStr_parts, splitParts_flatten]
  rw [hcat] at hdecode
  -- evaluate the decoder tail and the hex-to-bytes step
  have hmime : genMime (hexStr ct) =
      (if ct = [] then "application/octet-stream" else asciiOfBytes ct) := by
    unfold genMime
    rw [hexToAscii_hexStr ct hct]
    by_cases hcte : ct = []
    · subst hcte
      simp [asciiOfBytes]
    · rw [if_neg (asciiOfBytes_ne_empty ct hcte), if_neg hcte]
  have hdd : decodeDoginalsChain (chainStreams ct data sig lock extraVins) 20000 =
      .ok (hexStr data, genMime (hexStr ct)) := by
    unfold decodeDoginalsChain
    rw [hchainstreams, hdecode]
    show (if hexStr data = "" then
        Except.error "No Doginals data found in transaction chain."
      else Except.ok (hexStr data,
        if (some (genMime (hexStr ct))).getD "" = "" then "application/octet-stream"
        else (some (genMime (hexStr ct))).getD "")) = _
    rw [if_neg (hexStr_ne_empty data hne)]
    rw [show (some (genMime (hexStr ct))).getD "" = genMime (hexStr ct) from rfl]
    rw [if_neg (genMime_ne_empty (hexStr ct))]
  unfold reconstructBytes
  rw [hdd]
  show Except.ok (hexPairsToBytes
      (if (!false && decide ((hexStr data).length % 2 ≠ 0)) = true
        then hexStr data ++ "00000" else hexStr data).data,
      genMime (hexStr ct)) = _
  have hcond : (!false && decide ((hexStr data).length % 2 ≠ 0)) = false := by
    simp only [Bool.not_false, Bool.true_and, decide_eq_false_iff_not]
    show ¬ ((hexOfBytes data).length % 2 ≠ 0)
    rw [hexOfBytes_length]
    omega
  rw [hcond]
  simp only [Bool.false_eq_true, if_false]
  rw [show (hexStr data).data = hexOfBytes data from rfl]
  rw [hexPairsToBytes_hexOfBytes hdata, hmime]

/-- Witness for C1 on the concrete payload `[1, 2, 3]` with content type
`text/plain`, one funding-free chain. -/
theorem c1_envelope_roundtrip_witness :
    reconstructBytes (chainStreams [116, 101, 120, 116, 47, 112, 108, 97, 105, 110]
        [1, 2, 3] "30aa" "ff" (fun _ => [])) false 20000 =
      .ok ([1, 2, 3],
        if ([116, 101, 120, 116, 47, 112, 108, 97, 105, 110] : List Nat) = []
        then "application/octet-stream"
        else asciiOfBytes [116, 101, 120, 116, 47, 112, 108, 97, 105, 110]) :=
  c1_envelope_roundtrip [1, 2, 3] [116, 101, 120, 116, 47, 112, 108, 97, 105, 110]
    "30aa" "ff" (fun _ => [])
    (by decide) (by decide) (by decide) (by decide) (by decide)
    (fun _ v hv => absurd hv (List.not_mem_nil v))
    (by decide) (by decide)

/-! ### `broadcastAll` (part_000 lines 556-608) -/

/-- A transaction as seen by the broadcaster: its `hash` and its serialized
form (`toString`). -/
structure Tx where
  hash : String
  ser : String
deriving Repr, DecidableEq

/-- The outcome of one `broadcast` RPC attempt: success, or an error whose
effective message is `msg`. -/
inductive TxOutcome where
  | ok : TxOutcome
  | err (msg : String) : TxOutcome
deriving Repr, DecidableEq

/-- The two benign error messages of `broadcastAll` that trigger `continue`
("tx already sent, skipping"). -/
def benignMsg (msg : String) : Bool :=
  strContains msg "bad-txns-inputs-spent" || strContains msg "already in block chain"

/-- An iteration of the `broadcastAll` loop proceeds when the RPC succeeds or
fails with a benign message. -/
def proceeds (o : TxOutcome) : Bool :=
  match o with
  | .ok => true
  | .err msg => benignMsg msg

/-- Result of `broadcastAll`: either the normal return value (the txid list
and the reported `inscriptionTxid`), or `process.exit(1)` after the pending
journal was written with the given serialized transactions. -/
inductive BroadcastResult where
  | completed (txids : List String) (inscriptionTxid : Option String) : BroadcastResult
  | exited (journal : List String) : BroadcastResult
deriving Repr, DecidableEq

/-- The reported `inscriptionTxid`:
`txs.length > 1 ? txs[1].hash : txs[0]?.hash`. -/
def inscriptionTxidOf (txs : List Tx) : Option String :=
  if 1 < txs.length then (txs[1]?).map Tx.hash else (txs[0]?).map Tx.hash

/-- The `for` loop of `broadcastAll`, indexed by `i`; returns the journaled
suffix on the first non-benign failure and `none` if the loop completes. -/
def broadcastLoop (outcome : Nat → TxOutcome) : Nat → List Tx → Option (List Tx)
  | _, [] => none
  | i, t :: rest =>
    if proceeds (outcome i) then broadcastLoop outcome (i + 1) rest
    else some (t :: rest)

/-- `broadcastAll(txs)` where `outcome i` is what the `broadcast` RPC does on
the `i`-th transaction. -/
def broadcastAll (txs : List Tx) (outcome : Nat → TxOutcome) : BroadcastResult :=
  match broadcastLoop outcome 0 txs with
  | some failed => .exited (failed.map Tx.ser)
  | none => .completed (txs.map Tx.hash) (inscriptionTxidOf txs)

theorem broadcastLoop_fail (outcome : Nat → TxOutcome) (l : List Tx) :
    ∀ k i, i < l.length → (∀ j, j < i → proceeds (outcome (k + j)) = true) →
    proceeds (outcome (k + i)) = false →
    broadcastLoop outcome k l = some (l.drop i) := by
  induction l with
  | nil => intro k i hi _ _; simp at hi
  | cons t rest ih =>
    intro k i hi hok hfail
    match i with
    | 0 =>
      rw [Nat.add_zero] at hfail
      show (if proceeds (outcome k) then _ else _) = _
      rw [hfail]
      simp
    | m + 1 =>
      have h0 : proceeds (outcome k) = true := by
        have := hok 0 (by omega)
        rwa [Nat.add_zero] at this
      show (if proceeds (outcome k) then _ else _) = _
      rw [if_pos h0]
      have := ih (k + 1) m (by simp at hi; omega)
        (fun j hj => by rw [Nat.add_assoc, Nat.add_comm 1 j]; exact hok (j + 1) (by omega))
        (by rw [Nat.add_assoc, Nat.add_comm 1 m]; exact hfail)
      rw [this]
      rfl

theorem broadcastLoop_complete (outcome : Nat → TxOutcome) (l : List Tx) :
    ∀ k, (∀ j, j < l.length → proceeds (outcome (k + j)) = true) →
    broadcastLoop outcome k l = none := by
  induction l with
  | nil => intro k _; rfl
  | cons t rest ih =>
    intro k hok
    have h0 : proceeds (outcome k) = true := by
      have := hok 0 (by simp)
      rwa [Nat.add_zero] at this
    show (if proceeds (outcome k) then _ else _) = _
    rw [if_pos h0]
    exact ih (k + 1) fun j hj => by
      rw [Nat.add_assoc, Nat.add_comm 1 j]
      exact hok (j + 1) (by simp at hj ⊢; omega)

set_option maxRecDepth 100000 in
set_option maxHeartbeats 2000000 in
/-- Counterexample to C2's identification of the reported txid with the
reveal transaction: the payload of 1700 zero bytes with content type
`text/plain` packs into two partial scripts, so `inscribe` produces a chain
of three transactions; on such a chain the broadcaster reports `txs[1].hash`,
which is not the hash of the final (reveal) transaction. -/
theorem c2_reported_txid_cex :
    inscribeTxCount [116, 101, 120, 116, 47, 112, 108, 97, 105, 110]
        (List.replicate 1700 0) = 3 ∧
    broadcastAll [⟨"h0", "s0"⟩, ⟨"h1", "s1"⟩, ⟨"h2", "s2"⟩] (fun _ => .ok) =
      .completed ["h0", "h1", "h2"] (some "h1") ∧
    (some "h1" ≠
      (([⟨"h0", "s0"⟩, ⟨"h1", "s1"⟩, ⟨"h2", "s2"⟩] : List Tx).getLast?).map Tx.hash) := by
  refine ⟨?_, by decide, by decide⟩
  decide

/-- C2 (amended): when every iteration of the `broadcastAll` loop proceeds
(success or benign skip), the broadcaster returns the full txid list and
reports as inscription txid the hash of the second transaction when the
chain has more than one transaction, otherwise the hash of the first; this
reported txid is the hash of the reveal transaction only when the chain has
at most two transactions, not in general. -/
theorem c2_broadcastAll_reported (txs : List Tx) (outcome : Nat → TxOutcome)
    (hok : ∀ j, j < txs.length → proceeds (outcome j) = true) :
    broadcastAll txs outcome = .completed (txs.map Tx.hash)
      (if 1 < txs.length then (txs[1]?).map Tx.hash else (txs[0]?).map Tx.hash) := by
  unfold broadcastAll
  rw [broadcastLoop_complete outcome txs 0
    (fun j hj => by rw [Nat.zero_add]; exact hok j hj)]
  rfl

/-- Witness for C2 (amended) on a two-transaction chain. -/
theorem c2_broadcastAll_reported_witness :
    broadcastAll [⟨"a0", "r0"⟩, ⟨"a1", "r1"⟩] (fun _ => .ok) =
      .completed ["a0", "a1"]
        (if 1 < ([⟨"a0", "r0"⟩, ⟨"a1", "r1"⟩] : List Tx).length
         then (([⟨"a0", "r0"⟩, ⟨"a1", "r1"⟩] : List Tx)[1]?).map Tx.hash
         else (([⟨"a0", "r0"⟩, ⟨"a1", "r1"⟩] : List Tx)[0]?).map Tx.hash) :=
  c2_broadcastAll_reported [⟨"a0", "r0"⟩, ⟨"a1", "r1"⟩] (fun _ => .ok)
    (fun _ _ => rfl)

/-- C4: if the `i`-th broadcast fails with a message that is neither
`bad-txns-inputs-spent` nor `already in block chain`, while every earlier
iteration proceeded, then `broadcastAll` writes the pending journal with
exactly the serialized transactions from index `i` to the end, in order,
and exits with failure; transactions before index `i` are not journaled. -/
theorem c4_broadcastAll_journal (txs : List Tx) (outcome : Nat → TxOutcome)
    (i : Nat) (msg : String) (hi : i < txs.length)
    (hok : ∀ j, j < i → proceeds (outcome j) = true)
    (hfail : outcome i = .err msg) (hbad : benignMsg msg = false) :
    broadcastAll txs outcome = .exited ((txs.drop i).map Tx.ser) := by
  unfold broadcastAll
  rw [broadcastLoop_fail outcome txs 0 i hi
    (fun j hj => by rw [Nat.zero_add]; exact hok j hj)
    (by rw [Nat.zero_add, hfail]; exact hbad)]

/-- Witness for C4: the second of three transactions fails with
`mandatory-script-verify-flag-failed`; the journal holds the serialized
forms of transactions 1 and 2. -/
theorem c4_broadcastAll_journal_witness :
    broadcastAll [⟨"b0", "t0"⟩, ⟨"b1", "t1"⟩, ⟨"b2", "t2"⟩]
        (fun j => if j = 1 then .err "mandatory-script-verify-flag-failed" else .ok) =
      .exited ((([⟨"b0", "t0"⟩, ⟨"b1", "t1"⟩, ⟨"b2", "t2"⟩] : List Tx).drop 1).map Tx.ser) :=
  c4_broadcastAll_journal [⟨"b0", "t0"⟩, ⟨"b1", "t1"⟩, ⟨"b2", "t2"⟩]
    (fun j => if j = 1 then .err "mandatory-script-verify-flag-failed" else .ok)
    1 "mandatory-script-verify-flag-failed"
    (by decide) (fun j hj => by interval_cases j; decide) (by decide) (by decide)

/-! ### Master index (README.md lines 362-392) -/

/-- JS truthiness of an optional string (`undefined` and `""` are falsy). -/
def truthyStr : Option String → Bool
  | some s => !(s == "")
  | none => false

/-- `a || d` for an optional string `a` and a string default `d`. -/
def jsOrStr (o : Option String) (d : String) : String :=
  match o with
  | some s => if s = "" then d else s
  | none => d

/-- `existing.createdAt || meta.createdAt || new Date().toISOString()`. -/
def chooseCreatedAt (existing metaC : Option String) (now : String) : String :=
  jsOrStr existing (jsOrStr metaC now)

/-- A master-index entry: its `createdAt` field plus the remaining
key/value metadata. -/
structure MasterEntry where
  createdAt : Option String
  fields : List (String × String)
deriving Repr, DecidableEq

/-- Metadata passed to `upsertMasterEntry`. -/
structure MasterMeta where
  inscriptionId : Option String
  createdAt : Option String
  fields : List (String × String)
deriving Repr, DecidableEq

/-- Key/value view of the object spread `\x7b...existing, ...meta\x7d`:
`meta`'s pairs override `existing`'s. -/
def mergeFields (e m : List (String × String)) : List (String × String) :=
  (e.filter fun p => (m.lookup p.1).isNone) ++ m

/-- The in-memory master map (`master[id]` lookups). -/
def upsertMasterEntry (master : String → Option MasterEntry) (meta : MasterMeta)
    (now : String) : String → Option MasterEntry :=
  match meta.inscriptionId with
  | none => master
  | some id =>
    if id = "" then master
    else
      let existing := (master id).getD ⟨none, []⟩
      let createdAt := chooseCreatedAt existing.createdAt meta.createdAt now
      fun k => if k = id then
          some ⟨some createdAt, mergeFields existing.fields meta.fields⟩
        else master k

/-- A file-system side effect, with content of type `α`. -/
inductive FsOp (α : Type) where
  | write (path : String) (content : α) : FsOp α
  | rename (src dst : String) : FsOp α

def MASTER_PATH : String := "content/master.json"

/-- The file-system trace of `saveMaster`: one direct `writeFileSync` to
`MASTER_PATH` (content abstracted as the serialized master map). -/
def saveMasterOps {α : Type} (content : α) : List (FsOp α) :=
  [.write MASTER_PATH content]

/-- The file-system write trace of `upsertMasterEntry` (the `loadMaster`
read is not traced): nothing under the guard, otherwise exactly the
`saveMaster` trace of the updated map. -/
def upsertMasterEntryOps (master : String → Option MasterEntry) (meta : MasterMeta)
    (now : String) : List (FsOp (String → Option MasterEntry)) :=
  match meta.inscriptionId with
  | none => []
  | some id =>
    if id = "" then []
    else saveMasterOps (upsertMasterEntry master meta now)

/-- Modelled from the spec: a write-to-temp + rename replacement of `dst` —
some prefix of operations, then a write to a temporary path distinct from
`dst`, then a rename of that path over `dst`. -/
def specAtomicReplace {α : Type} (ops : List (FsOp α)) (dst : String) : Prop :=
  ∃ (pre : List (FsOp α)) (tmp : String) (content : α),
    tmp ≠ dst ∧ ops = pre ++ [.write tmp content, .rename tmp dst]

/-- Counterexample to C6: a concrete `upsertMasterEntry` call writes the
master index with a single direct `writeFileSync` to `MASTER_PATH`; its
trace contains no rename and does not match the spec's write-to-temp +
rename pattern, so an interrupted write can leave a truncated
`master.json`. -/
theorem c6_saveMaster_cex :
    upsertMasterEntryOps (fun _ => none) ⟨some "abc", some "t0", []⟩ "t1" =
      [FsOp.write MASTER_PATH
        (upsertMasterEntry (fun _ => none) ⟨some "abc", some "t0", []⟩ "t1")] ∧
    ¬ specAtomicReplace
        (upsertMasterEntryOps (fun _ => none) ⟨some "abc", some "t0", []⟩ "t1")
        MASTER_PATH := by
  constructor
  · rfl
  · rintro ⟨pre, tmp, content, hne, heq⟩
    have hlen := congrArg List.length heq
    simp only [upsertMasterEntryOps, saveMasterOps, List.length_append,
      List.length_cons, List.length_nil] at hlen
    have : (if ("abc" : String) = "" then ([] : List (FsOp (String → Option MasterEntry)))
        else [FsOp.write MASTER_PATH
          (upsertMasterEntry (fun _ => none) ⟨some "abc", some "t0", []⟩ "t1")]).length =
        1 := by rw [if_neg (by decide)]; rfl
    rw [this] at hlen
    omega

/-- C6 (amended): every master-index write performed by `upsertMasterEntry`
(outside its no-op guard) is a single direct `writeFileSync` of the updated
map to `MASTER_PATH`, with no temporary file and no rename. -/
theorem c6_saveMaster_direct (master : String → Option MasterEntry)
    (meta : MasterMeta) (now id : String)
    (hid : meta.inscriptionId = some id) (hid' : id ≠ "") :
    upsertMasterEntryOps master meta now =
      [FsOp.write MASTER_PATH (upsertMasterEntry master meta now)] := by
  unfold upsertMasterEntryOps
  rw [hid]
  show (if id = "" then ([] : List (FsOp (String → Option MasterEntry)))
    else saveMasterOps (upsertMasterEntry master meta now)) = _
  rw [if_neg hid']
  rfl

/-- Witness for C6 (amended). -/
theorem c6_saveMaster_direct_witness :
    upsertMasterEntryOps (fun _ => none) ⟨some "xy", none, []⟩ "t2" =
      [FsOp.write MASTER_PATH
        (upsertMasterEntry (fun _ => none) ⟨some "xy", none, []⟩ "t2")] :=
  c6_saveMaster_direct (fun _ => none) ⟨some "xy", none, []⟩ "t2" "xy" rfl (by decide)

theorem jsOrStr_ne_empty (o : Option String) (d : String) (hd : d ≠ "") :
    jsOrStr o d ≠ "" := by
  match o with
  | none => exact hd
  | some s =>
    show (if s = "" then d else s) ≠ ""
    by_cases hs : s = ""
    · rw [if_pos hs]; exact hd
    · rw [if_neg hs]; exact hs

theorem jsOrStr_truthy (o : Option String) (d s : String) (ho : o = some s)
    (ht : truthyStr o = true) : jsOrStr o d = s := by
  subst ho
  unfold truthyStr at ht
  simp only [Bool.not_eq_true', beq_eq_false_iff_ne, ne_eq] at ht
  show (if s = "" then d else s) = s
  rw [if_neg ht]

theorem upsert_eval (master : String → Option MasterEntry) (meta : MasterMeta)
    (id now : String) (hid : meta.inscriptionId = some id) (hid' : id ≠ "") :
    (upsertMasterEntry master meta now) id =
      some ⟨some (chooseCreatedAt ((master id).getD ⟨none, []⟩).createdAt
                    meta.createdAt now),
            mergeFields ((master id).getD ⟨none, []⟩).fields meta.fields⟩ := by
  obtain ⟨oid, mc, mf⟩ := meta
  simp only [MasterMeta.inscriptionId] at hid
  subst hid
  show (if id = "" then master
    else fun k => if k = id then
        some ⟨some (chooseCreatedAt ((master id).getD ⟨none, []⟩).createdAt mc now),
              mergeFields ((master id).getD ⟨none, []⟩).fields mf⟩
      else master k) id = _
  rw [if_neg hid']
  rw [if_pos rfl]

/-- C7: under `upsertMasterEntry`, (1) on the first insert for an id the
entry's `createdAt` is set to a truthy value (the metadata's `createdAt`
when truthy, else the current timestamp); (2) on every later upsert for an
id whose existing entry has a truthy `createdAt`, that `createdAt` is kept
unchanged regardless of the metadata; and (3) every entry ever produced by
an upsert has a truthy `createdAt`, so the truthiness hypothesis of (2)
holds for all entries the system itself created. -/
theorem c7_upsert_createdAt (master : String → Option MasterEntry)
    (meta : MasterMeta) (id now : String)
    (hid : meta.inscriptionId = some id) (hid' : id ≠ "") (hnow : now ≠ "") :
    (master id = none →
      (upsertMasterEntry master meta now) id =
        some ⟨some (chooseCreatedAt none meta.createdAt now),
              mergeFields [] meta.fields⟩ ∧
      chooseCreatedAt none meta.createdAt now ≠ "") ∧
    (∀ e, master id = some e → truthyStr e.createdAt = true →
      (upsertMasterEntry master meta now) id =
        some ⟨e.createdAt, mergeFields e.fields meta.fields⟩) ∧
    (∀ k e, (∀ k' e', master k' = some e' → truthyStr e'.createdAt = true) →
      (upsertMasterEntry master meta now) k = some e →
      truthyStr e.createdAt = true) := by
  refine ⟨?_, ?_, ?_⟩
  · intro hnone
    have h := upsert_eval master meta id now hid hid'
    rw [hnone] at h
    exact ⟨h, jsOrStr_ne_empty _ _ (jsOrStr_ne_empty _ _ hnow)⟩
  · intro e he ht
    have h := upsert_eval master meta id now hid hid'
    rw [he] at h
    obtain ⟨oc, hc⟩ : ∃ oc, e.createdAt = some oc := by
      match hoc : e.createdAt with
      | some s => exact ⟨s, rfl⟩
      | none => rw [hoc] at ht; exact absurd ht (by decide)
    rw [h, show chooseCreatedAt (Option.getD (some e) ⟨none, []⟩).createdAt
          meta.createdAt now = chooseCreatedAt e.createdAt meta.createdAt now from rfl]
    unfold chooseCreatedAt
    rw [jsOrStr_truthy e.createdAt _ oc hc ht, hc]
    rfl
  · intro k e hall he
    obtain ⟨oid, mc, mf⟩ := meta
    simp only [MasterMeta.inscriptionId] at hid
    subst hid
    have he' : (if id = "" then master
        else fun j => if j = id then
            some ⟨some (chooseCreatedAt ((master id).getD ⟨none, []⟩).createdAt mc now),
                  mergeFields ((master id).getD ⟨none, []⟩).fields mf⟩
          else master j) k = some e := he
    rw [if_neg hid'] at he'
    by_cases hk : k = id
    · rw [if_pos hk] at he'
      have hc : e.createdAt =
          some (chooseCreatedAt ((master id).getD ⟨none, []⟩).createdAt mc now) := by
        have := congrArg (Option.map MasterEntry.createdAt) he'
        simp only [Option.map_some] at this
        exact (Option.some.injEq _ _).mp this.symm |>.symm ▸ rfl
      rw [hc]
      unfold truthyStr
      simp only [Bool.not_eq_true', beq_eq_false_iff_ne, ne_eq]
      exact jsOrStr_ne_empty _ _ (jsOrStr_ne_empty _ _ hnow)
    · rw [if_neg hk] at he'
      exact hall k e he'

/-- Witness for C7: a later upsert for id `abc` keeps the existing
`createdAt` `t0` even though the metadata carries `t9`. -/
theorem c7_upsert_createdAt_witness :
    (upsertMasterEntry (fun k => if k = "abc" then some ⟨some "t0", []⟩ else none)
        ⟨some "abc", some "t9", [("a", "1")]⟩ "t5") "abc" =
      some ⟨some "t0", mergeFields [] [("a", "1")]⟩ :=
  (c7_upsert_createdAt (fun k => if k = "abc" then some ⟨some "t0", []⟩ else none)
      ⟨some "abc", some "t9", [("a", "1")]⟩ "abc" "t5" rfl (by decide)
      (by decide)).2.1 ⟨some "t0", []⟩ (by decide) (by decide)

/-! ### Progress tracker (README.md lines 834-961) -/

/-- One entry of `progressMap`. -/
structure Progress where
  txid : String
  chunksFound : Nat
  estimatedTotal : Option Nat
  active : Bool
  label : String
  startedAt : String
  updatedAt : String
  depTotal : Option Nat
  depDone : Nat
deriving Repr, DecidableEq

def ProgressMap : Type := String → Option Progress

def baseProgressObject (key now : String) : Progress :=
  ⟨key, 0, none, true, "init", now, now, none, 0⟩

def initProgress (m : ProgressMap) (key now : String) : ProgressMap :=
  fun k => if k = key then some (baseProgressObject key now) else m k

/-- JS falsiness of an optional number (`null` and `0` are falsy). -/
def jsFalsyNat : Option Nat → Bool
  | none => true
  | some n => n == 0

def updateProgress (m : ProgressMap) (key label : String) (chunksFoundInStep : Nat)
    (numChunksReported : Option Nat) (now : String) : ProgressMap :=
  let p0 := (m key).getD (baseProgressObject key now)
  let p1 := if 0 < chunksFoundInStep
            then { p0 with chunksFound := p0.chunksFound + chunksFoundInStep } else p0
  let p2 := match numChunksReported with
    | some n =>
      if jsFalsyNat p1.estimatedTotal || decide (p1.chunksFound + n > p1.estimatedTotal.getD 0)
      then { p1 with estimatedTotal := some (p1.chunksFound + n) } else p1
    | none => p1
  fun k => if k = key then
      some { p2 with label := label, active := true, updatedAt := now }
    else m k

def setDependencyPlan (m : ProgressMap) (key : String) (totalDeps : Nat)
    (now : String) : ProgressMap :=
  if key = "" ∨ totalDeps = 0 then m
  else
    let p := (m key).getD (baseProgressObject key now)
    fun k => if k = key then
        some { p with depTotal := some totalDeps, depDone := 0, updatedAt := now }
      else m k

def incrementDependencyDone (m : ProgressMap) (key now : String) : ProgressMap :=
  if key = "" then m
  else match m key with
    | none => m
    | some p => fun k => if k = key then
        some { p with depDone := p.depDone + 1, updatedAt := now }
      else m k

def completeProgress (m : ProgressMap) (key now : String) : ProgressMap :=
  match m key with
  | none => m
  | some p => fun k => if k = key then
      some { p with active := false, updatedAt := now }
    else m k

/-- Counterexample to C8: mirror of the decode-with-dependencies call path —
`decodeDoginalsChain` ends with `completeProgress(key)`, after which
`handleHtmlSvgDependencies` calls `setDependencyPlan(key, ...)` on the same
key; the entry, already `active=false`, is mutated again (`depTotal`,
`updatedAt`). -/
theorem c8_complete_not_final_cex :
    (completeProgress (initProgress (fun _ => none) "k" "t0") "k" "t1") "k" =
      some ⟨"k", 0, none, false, "init", "t0", "t1", none, 0⟩ ∧
    (setDependencyPlan (completeProgress (initProgress (fun _ => none) "k" "t0") "k" "t1")
        "k" 3 "t2") "k" =
      some ⟨"k", 0, none, false, "init", "t0", "t2", some 3, 0⟩ ∧
    some (⟨"k", 0, none, false, "init", "t0", "t2", some 3, 0⟩ : Progress) ≠
      some (⟨"k", 0, none, false, "init", "t0", "t1", none, 0⟩ : Progress) := by
  refine ⟨by decide, by decide, by decide⟩

/-- C8 (amended): after `completeProgress` has set an entry inactive, the
dependency operations on the same key may still touch `depTotal`, `depDone`
and `updatedAt`, but they preserve `chunksFound`, `estimatedTotal` and the
`active=false` flag; `updateProgress`, by contrast, reactivates the entry
(sets `active=true`) rather than mutating it silently. -/
theorem c8_dep_ops_preserve (m : ProgressMap) (key nowA nowB nowC lbl : String)
    (t c : Nat) (onum : Option Nat) (p : Progress)
    (hp : m key = some p) (hact : p.active = false) :
    (∀ q, (setDependencyPlan m key t nowA) key = some q →
      q.chunksFound = p.chunksFound ∧ q.estimatedTotal = p.estimatedTotal ∧
      q.active = false) ∧
    (∀ q, (incrementDependencyDone m key nowB) key = some q →
      q.chunksFound = p.chunksFound ∧ q.estimatedTotal = p.estimatedTotal ∧
      q.active = false) ∧
    (∀ q, (updateProgress m key lbl c onum nowC) key = some q →
      q.active = true) := by
  refine ⟨?_, ?_, ?_⟩
  · intro q hq
    unfold setDependencyPlan at hq
    by_cases hg : key = "" ∨ t = 0
    · rw [if_pos hg, hp] at hq
      cases hq
      exact ⟨rfl, rfl, hact⟩
    · rw [if_neg hg] at hq
      simp only [eq_self_iff_true, if_true, hp, Option.getD_some, Option.some.injEq] at hq
      subst hq
      exact ⟨rfl, rfl, hact⟩
  · intro q hq
    unfold incrementDependencyDone at hq
    by_cases hg : key = ""
    · rw [if_pos hg, hp] at hq
      cases hq
      exact ⟨rfl, rfl, hact⟩
    · rw [if_neg hg, hp] at hq
      simp only [eq_self_iff_true, if_true, Option.some.injEq] at hq
      subst hq
      exact ⟨rfl, rfl, hact⟩
  · intro q hq
    unfold updateProgress at hq
    simp only [eq_self_iff_true, if_true, Option.some.injEq] at hq
    subst hq
    rfl

/-- Witness for C8 (amended) on a concrete inactive entry. -/
theorem c8_dep_ops_preserve_witness :
    (∀ q, (setDependencyPlan
        (fun k => if k = "w" then some ⟨"w", 5, some 7, false, "done", "t0", "t1", none, 0⟩
                  else none) "w" 2 "t2") "w" = some q →
      q.chunksFound = 5 ∧ q.estimatedTotal = some 7 ∧ q.active = false) ∧
    (∀ q, (incrementDependencyDone
        (fun k => if k = "w" then some ⟨"w", 5, some 7, false, "done", "t0", "t1", none, 0⟩
                  else none) "w" "t3") "w" = some q →
      q.chunksFound = 5 ∧ q.estimatedTotal = some 7 ∧ q.active = false) ∧
    (∀ q, (updateProgress
        (fun k => if k = "w" then some ⟨"w", 5, some 7, false, "done", "t0", "t1", none, 0⟩
                  else none) "w" "step" 1 none "t4") "w" = some q →
      q.active = true) := by
  have h := c8_dep_ops_preserve
    (fun k => if k = "w" then some ⟨"w", 5, some 7, false, "done", "t0", "t1", none, 0⟩
              else none) "w" "t2" "t3" "t4" "step" 2 1 none
    ⟨"w", 5, some 7, false, "done", "t0", "t1", none, 0⟩ (by decide) (by decide)
  exact h

/-! ### Bulk mint controller (server.js lines 2543-2998)

The SSE plumbing, log lines and progress events are not modelled; external
cancellation and the fuel bound both simply truncate the trace, which the
discipline checker accepts at any point. -/

def MAX_PER_WAVE : Nat := 12

/-- Result of one `runMintWave` child process: its exit code, whether the
merged output mentioned `too-long-mempool-chain`, and the inscription txids
scraped from stdout. -/
structure WaveResult where
  exitCode : Nat
  chainLimit : Bool
  mintedTxids : List String
deriving Repr, DecidableEq

/-- The mutable main-loop state: `completed`, `allTxids`,
`lastSuccessfulTxid`. -/
structure MintState where
  completed : Nat
  allTxids : List String
  lastSuccessfulTxid : Option String
deriving Repr, DecidableEq

/-- `allTxids.push(txid)` for each new txid (`includes` dedup). -/
def pushNew (l xs : List String) : List String :=
  xs.foldl (fun acc t => if acc.contains t then acc else acc ++ [t]) l

/-- The `if (wave.mintedTxids.length) { ... }` accounting block shared by
main and test waves. -/
def absorbWave (s : MintState) (w : WaveResult) : MintState :=
  if w.mintedTxids = [] then s
  else
    { completed := s.completed + w.mintedTxids.length,
      allTxids := pushNew s.allTxids w.mintedTxids,
      lastSuccessfulTxid :=
        match w.mintedTxids.getLast? with
        | some t => if t = "" then s.lastSuccessfulTxid else some t
        | none => s.lastSuccessfulTxid }

/-- `watchTxid` of the success path:
`(wave.mintedTxids.length ? last : null) || lastSuccessfulTxid`, where `s`
is the state after the accounting block. -/
def watchAfterWave (w : WaveResult) (s : MintState) : Option String :=
  match w.mintedTxids.getLast? with
  | some t => if t = "" then s.lastSuccessfulTxid else some t
  | none => s.lastSuccessfulTxid

/-- `watchTxid` of the still-chain-limited path: `lastSuccessfulTxid`,
falling back to the last entry of `allTxids`. -/
def chainWatch (s : MintState) : Option String :=
  if truthyStr s.lastSuccessfulTxid then s.lastSuccessfulTxid
  else s.allTxids.getLast?

/-- Observable events of the main loop, in program order. -/
inductive MintEvent where
  | wave (isTest : Bool) (exitCode : Nat) (chainLimit : Bool) : MintEvent
  | deletePending : MintEvent
  | syncWallet (ok : Bool) : MintEvent
  | waitConfirm (txid : String) : MintEvent
  | sleepRetry : MintEvent
  | aborted : MintEvent
  | finished : MintEvent
deriving Repr, DecidableEq

/-- The event trace of the `while (!cancelled && completed < total)` main
loop, driven by the oracle `waves i` (result of the `i`-th `runMintWave`)
and `syncOk j` (result of the `j`-th `syncWalletWithRetry`). -/
def mintLoop (waves : Nat → WaveResult) (syncOk : Nat → Bool) :
    Nat → Nat → MintState → Nat → Nat → List MintEvent
  | 0, _, _, _, _ => []
  | fuel + 1, total, s, wi, si =>
    if s.completed < total then
      MintEvent.wave false (waves wi).exitCode (waves wi).chainLimit ::
        (if (waves wi).exitCode = 0 ∧ (waves wi).chainLimit = false then
          (if truthyStr (watchAfterWave (waves wi) (absorbWave s (waves wi))) then
            MintEvent.waitConfirm
              ((watchAfterWave (waves wi) (absorbWave s (waves wi))).getD "")
          else MintEvent.sleepRetry) ::
          MintEvent.syncWallet (syncOk si) ::
          (if syncOk si then
            mintLoop waves syncOk fuel total (absorbWave s (waves wi)) (wi + 1) (si + 1)
          else [MintEvent.aborted])
        else if (waves wi).exitCode ≠ 0 ∧ (waves wi).chainLimit = false then
          [MintEvent.aborted]
        else
          MintEvent.deletePending ::
          (if total ≤ (absorbWave s (waves wi)).completed then [MintEvent.finished]
           else
            MintEvent.syncWallet (syncOk si) ::
            (if syncOk si then
              MintEvent.wave true (waves (wi + 1)).exitCode (waves (wi + 1)).chainLimit ::
                (if (waves (wi + 1)).exitCode = 0 ∧ (waves (wi + 1)).chainLimit = false then
                  (if truthyStr (watchAfterWave (waves (wi + 1))
                      (absorbWave (absorbWave s (waves wi)) (waves (wi + 1)))) then
                    MintEvent.waitConfirm
                      ((watchAfterWave (waves (wi + 1))
                        (absorbWave (absorbWave s (waves wi)) (waves (wi + 1)))).getD "")
                  else MintEvent.sleepRetry) ::
                  MintEvent.syncWallet (syncOk (si + 1)) ::
                  (if syncOk (si + 1) then
                    mintLoop waves syncOk fuel total
                      (absorbWave (absorbWave s (waves wi)) (waves (wi + 1)))
                      (wi + 2) (si + 2)
                  else [MintEvent.aborted])
                else if (waves (wi + 1)).exitCode ≠ 0 ∧ (waves (wi + 1)).chainLimit = false then
                  [MintEvent.aborted]
                else
                  (if truthyStr (chainWatch
                      (absorbWave (absorbWave s (waves wi)) (waves (wi + 1)))) then
                    MintEvent.waitConfirm
                      ((chainWatch
                        (absorbWave (absorbWave s (waves wi)) (waves (wi + 1)))).getD "")
                  else MintEvent.sleepRetry) ::
                  MintEvent.syncWallet (syncOk (si + 1)) ::
                  (if syncOk (si + 1) then
                    mintLoop waves syncOk fuel total
                      (absorbWave (absorbWave s (waves wi)) (waves (wi + 1)))
                      (wi + 2) (si + 2)
                  else [MintEvent.aborted]))
             else [MintEvent.aborted])))
    else [MintEvent.finished]

/-- Modes of the chain-limit discipline checker. -/
inductive DMode where
  | scan
  | postSuccessWait
  | postSuccessSync
  | needAbort
  | needDelete
  | needSyncAfterDelete
  | needTest
  | needWait
  | needSyncAfterWait
  | halted
deriving Repr, DecidableEq

/-- One step of the checker: `none` marks a discipline violation.  A normal
(non-test) wave is admitted only in `scan`; after a chain-limited wave the
only accepted continuation is delete-pending, then a successful sync, then
exactly one test wave; a chain-limited test wave must be followed by a
confirmation wait and another sync before `scan` is re-entered, and a
hard-failed test wave only by the abort event. -/
def disciplineStep : DMode → MintEvent → Option DMode
  | .scan, .wave isTest e cl =>
      if isTest then none
      else if cl then some .needDelete
      else if e = 0 then some .postSuccessWait
      else some .needAbort
  | .scan, .finished => some .halted
  | .postSuccessWait, .waitConfirm _ => some .postSuccessSync
  | .postSuccessSync, .syncWallet ok =>
      if ok then some .scan else some .needAbort
  | .needAbort, .aborted => some .halted
  | .needDelete, .deletePending => some .needSyncAfterDelete
  | .needSyncAfterDelete, .finished => some .halted
  | .needSyncAfterDelete, .syncWallet ok =>
      if ok then some .needTest else some .needAbort
  | .needTest, .wave isTest e cl =>
      if isTest then
        if cl then some .needWait
        else if e = 0 then some .postSuccessWait
        else some .needAbort
      else none
  | .needWait, .waitConfirm _ => some .needSyncAfterWait
  | .needSyncAfterWait, .syncWallet ok =>
      if ok then some .scan else some .needAbort
  | _, _ => none

/-- Run the checker; a (possibly truncated) trace is accepted when no step
violates the discipline. -/
def disciplineRun : DMode → List MintEvent → Bool
  | _, [] => true
  | m, e :: r =>
    match disciplineStep m e with
    | some m' => disciplineRun m' r
    | none => false

theorem absorbWave_last (s : MintState) (w : WaveResult)
    (hne : w.mintedTxids ≠ []) (hall : ∀ x ∈ w.mintedTxids, x ≠ "") :
    ∃ t, (absorbWave s w).lastSuccessfulTxid = some t ∧ t ≠ "" := by
  obtain ⟨t, ht⟩ := List.getLast?_isSome.mpr hne |> Option.isSome_iff_exists.mp
  have htne : t ≠ "" := hall t (List.mem_of_mem_getLast? ht)
  refine ⟨t, ?_, htne⟩
  unfold absorbWave
  rw [if_neg hne]
  show (match w.mintedTxids.getLast? with
    | some t => if t = "" then s.lastSuccessfulTxid else some t
    | none => s.lastSuccessfulTxid) = some t
  rw [ht]
  show (if t = "" then s.lastSuccessfulTxid else some t) = some t
  rw [if_neg htne]

theorem watchAfterWave_truthy (w : WaveResult) (s : MintState)
    (hne : w.mintedTxids ≠ []) (hall : ∀ x ∈ w.mintedTxids, x ≠ "") :
    truthyStr (watchAfterWave w s) = true := by
  obtain ⟨t, ht⟩ := List.getLast?_isSome.mpr hne |> Option.isSome_iff_exists.mp
  have htne : t ≠ "" := hall t (List.mem_of_mem_getLast? ht)
  unfold watchAfterWave
  rw [ht]
  show truthyStr (if t = "" then s.lastSuccessfulTxid else some t) = true
  rw [if_neg htne]
  unfold truthyStr
  simp [htne]

theorem chainWatch_truthy (s : MintState) (t : String)
    (hs : s.lastSuccessfulTxid = some t) (ht : t ≠ "") :
    truthyStr (chainWatch s) = true := by
  unfold chainWatch
  have htr : truthyStr s.lastSuccessfulTxid = true := by
    rw [hs]; unfold truthyStr; simp [ht]
  rw [if_pos htr, htr]

/-- C5: whenever a wave of the bulk mint controller reports the mempool
chain-limit condition, the emitted trace continues with delete-pending,
then a wallet sync, then exactly one test wave, before any further normal
wave; a chain-limited test wave is followed by a confirmation wait and a
further sync before the loop resumes, and a test wave failing without
chain-limit aborts the job.  The hypothesis that every wave mints at least
one (non-empty) txid rules out the no-known-txid 30-second-sleep fallback,
so the recovery always waits on a concrete transaction. -/
theorem c5_chainlimit_discipline (waves : Nat → WaveResult) (syncOk : Nat → Bool)
    (hmint : ∀ i, (waves i).mintedTxids ≠ [] ∧ ∀ x ∈ (waves i).mintedTxids, x ≠ "") :
    ∀ fuel total s wi si,
      disciplineRun .scan (mintLoop waves syncOk fuel total s wi si) = true := by
  intro fuel
  induction fuel with
  | zero => intro total s wi si; rfl
  | succ fuel ih =>
    intro total s wi si
    simp only [mintLoop]
    by_cases hcomp : s.completed < total
    · rw [if_pos hcomp]
      by_cases hsucc : (waves wi).exitCode = 0 ∧ (waves wi).chainLimit = false
      · rw [if_pos hsucc]
        rw [if_pos (watchAfterWave_truthy (waves wi) (absorbWave s (waves wi))
          (hmint wi).1 (hmint wi).2)]
        simp only [disciplineRun, disciplineStep, hsucc.1, hsucc.2,
          Bool.false_eq_true, if_false, if_true]
        by_cases hs : syncOk si
        · rw [if_pos hs]
          simp only [hs, if_true]
          exact ih total (absorbWave s (waves wi)) (wi + 1) (si + 1)
        · rw [if_neg hs]
          simp only [Bool.not_eq_true] at hs
          simp [hs, disciplineRun, disciplineStep]
      · rw [if_neg hsucc]
        by_cases hhard : (waves wi).exitCode ≠ 0 ∧ (waves wi).chainLimit = false
        · rw [if_pos hhard]
          have he : ¬ (waves wi).exitCode = 0 := hhard.1
          simp [disciplineRun, disciplineStep, hhard.2, he]
        · have hcl : (waves wi).chainLimit = true := by
            cases hb : (waves wi).chainLimit with
            | true => rfl
            | false =>
              exfalso
              by_cases he : (waves wi).exitCode = 0
              · exact hsucc ⟨he, hb⟩
              · exact hhard ⟨he, hb⟩
          rw [if_neg hhard]
          simp only [disciplineRun, disciplineStep, hcl, if_true, if_false]
          by_cases hdone : total ≤ (absorbWave s (waves wi)).completed
          · rw [if_pos hdone]
            rfl
          · rw [if_neg hdone]
            by_cases hs : syncOk si
            · rw [if_pos hs]
              simp only [disciplineRun, disciplineStep, hs, if_true]
              by_cases hts : (waves (wi + 1)).exitCode = 0 ∧ (waves (wi + 1)).chainLimit = false
              · rw [if_pos hts]
                rw [if_pos (watchAfterWave_truthy (waves (wi + 1))
                  (absorbWave (absorbWave s (waves wi)) (waves (wi + 1)))
                  (hmint (wi + 1)).1 (hmint (wi + 1)).2)]
                simp only [disciplineRun, disciplineStep, hts.1, hts.2,
                  Bool.false_eq_true, if_false, if_true]
                by_cases hs2 : syncOk (si + 1)
                · rw [if_pos hs2]
                  simp only [hs2, if_true]
                  exact ih total (absorbWave (absorbWave s (waves wi)) (waves (wi + 1)))
                    (wi + 2) (si + 2)
                · rw [if_neg hs2]
                  simp only [Bool.not_eq_true] at hs2
                  simp [hs2, disciplineRun, disciplineStep]
              · rw [if_neg hts]
                by_cases hth : (waves (wi + 1)).exitCode ≠ 0 ∧
                    (waves (wi + 1)).chainLimit = false
                · rw [if_pos hth]
                  have he : ¬ (waves (wi + 1)).exitCode = 0 := hth.1
                  simp [disciplineRun, disciplineStep, hth.2, he]
                · have htcl : (waves (wi + 1)).chainLimit = true := by
                    cases hb : (waves (wi + 1)).chainLimit with
                    | true => rfl
                    | false =>
                      exfalso
                      by_cases he : (waves (wi + 1)).exitCode = 0
                      · exact hts ⟨he, hb⟩
                      · exact hth ⟨he, hb⟩
                  rw [if_neg hth]
                  obtain ⟨t, htl, htne⟩ := absorbWave_last
                    (absorbWave s (waves wi)) (waves (wi + 1))
                    (hmint (wi + 1)).1 (hmint (wi + 1)).2
                  rw [if_pos (chainWatch_truthy _ t htl htne)]
                  simp only [disciplineRun, disciplineStep, htcl, if_true]
                  by_cases hs2 : syncOk (si + 1)
                  · rw [if_pos hs2]
                    simp only [hs2, if_true]
                    exact ih total (absorbWave (absorbWave s (waves wi)) (waves (wi + 1)))
                      (wi + 2) (si + 2)
                  · rw [if_neg hs2]
                    simp only [Bool.not_eq_true] at hs2
                    simp [hs2, disciplineRun, disciplineStep]
            · rw [if_neg hs]
              simp only [Bool.not_eq_true] at hs
              simp [hs, disciplineRun, disciplineStep]
    · rw [if_neg hcomp]
      rfl

/-- Witness for C5: a chain-limited first wave, a clean test wave, a clean
final wave; the checker accepts the whole trace. -/
theorem c5_chainlimit_discipline_witness :
    disciplineRun .scan (mintLoop
      (fun i => match i with
        | 0 => ⟨1, true, ["a1"]⟩
        | 1 => ⟨0, false, ["a2"]⟩
        | _ => ⟨0, false, ["a3"]⟩)
      (fun _ => true) 5 3 ⟨0, [], none⟩ 0 0) = true :=
  c5_chainlimit_discipline
    (fun i => match i with
      | 0 => ⟨1, true, ["a1"]⟩
      | 1 => ⟨0, false, ["a2"]⟩
      | _ => ⟨0, false, ["a3"]⟩)
    (fun _ => true)
    (by
      intro i
      match i with
      | 0 => exact ⟨by decide, by decide⟩
      | 1 => exact ⟨by decide, by decide⟩
      | n + 2 =>
        refine ⟨?_, ?_⟩
        · show (["a3"] : List String) ≠ []
          decide
        · show ∀ x ∈ (["a3"] : List String), x ≠ ""
          decide)
    5 3 ⟨0, [], none⟩ 0 0

/-! ### Byte sniffer (README.md lines 439-509)

Node's `"ascii"` decoding masks each byte with `0x7f`; its `"utf8"` decoding
agrees with byte-wise `Char.ofNat` on ASCII bytes, which is all the
signature comparisons, the trim, the brace test and the two regexes ever
distinguish. -/

structure SniffResult where
  mimeType : Option String
  ext : Option String
deriving Repr, DecidableEq

/-- `buf.toString("ascii", a, b)` as a character list. -/
def asciiSlice (buf : List Nat) (a b : Nat) : List Char :=
  ((buf.drop a).take (b - a)).map fun x => Char.ofNat (x % 128)

/-- `buf.slice(0, 256).toString("utf8")` as a character list (byte-wise;
exact on ASCII heads). -/
def utf8HeadChars (buf : List Nat) : List Char :=
  (buf.take 256).map fun x => Char.ofNat x

/-- JS whitespace as relevant to `trimStart` and `\s` for characters drawn
from single bytes. -/
def isJsWs (c : Char) : Bool :=
  c.toNat == 32 || c.toNat == 9 || c.toNat == 10 || c.toNat == 11 ||
    c.toNat == 12 || c.toNat == 13 || c.toNat == 160

/-- Consume an exact literal prefix. -/
def dropLit : List Char → List Char → Option (List Char)
  | [], cs => some cs
  | _ :: _, [] => none
  | l :: ls, c :: cs => if c = l then dropLit ls cs else none

/-- The regex `/"asset"\s*:\s*\x7b/` anchored at the start of `cs`. -/
def assetHere (cs : List Char) : Bool :=
  match dropLit "\"asset\"".data cs with
  | none => false
  | some r1 =>
    match r1.dropWhile isJsWs with
    | c :: r3 =>
      if c.toNat = 58 then
        match r3.dropWhile isJsWs with
        | c2 :: _ => c2.toNat == 123
        | [] => false
      else false
    | [] => false

/-- The regex `/"version"\s*:\s*"/` anchored at the start of `cs`. -/
def versionHere (cs : List Char) : Bool :=
  match dropLit "\"version\"".data cs with
  | none => false
  | some r1 =>
    match r1.dropWhile isJsWs with
    | c :: r3 =>
      if c.toNat = 58 then
        match r3.dropWhile isJsWs with
        | c2 :: _ => c2.toNat == 34
        | [] => false
      else false
    | [] => false

/-- `.test` of an unanchored regex: try the anchored match at every
suffix. -/
def anySuffix (p : List Char → Bool) : List Char → Bool
  | [] => p []
  | c :: cs => p (c :: cs) || anySuffix p cs

/-- The "very conservative GLTF JSON heuristic" applied to the decoded
≤256-byte head: `trimStart`, `startsWith("\x7b")`, and the two regexes. -/
def gltfJsonHeuristic (head : List Char) : Bool :=
  match head.dropWhile isJsWs with
  | [] => false
  | c :: t' =>
    c.toNat == 123 && anySuffix assetHere (c :: t') && anySuffix versionHere (c :: t')

def glbSig (buf : List Nat) : Bool :=
  asciiSlice buf 0 4 == "glTF".data

def pngSig (buf : List Nat) : Bool :=
  decide (8 ≤ buf.length) && buf.getD 0 0 == 0x89 && buf.getD 1 0 == 0x50 &&
    buf.getD 2 0 == 0x4e && buf.getD 3 0 == 0x47 && buf.getD 4 0 == 0x0d &&
    buf.getD 5 0 == 0x0a && buf.getD 6 0 == 0x1a && buf.getD 7 0 == 0x0a

def jpgSig (buf : List Nat) : Bool :=
  decide (3 ≤ buf.length) && buf.getD 0 0 == 0xff && buf.getD 1 0 == 0xd8 &&
    buf.getD 2 0 == 0xff

def gifSig (buf : List Nat) : Bool :=
  decide (6 ≤ buf.length) &&
    (asciiSlice buf 0 6 == "GIF87a".data || asciiSlice buf 0 6 == "GIF89a".data)

def webpSig (buf : List Nat) : Bool :=
  decide (12 ≤ buf.length) && asciiSlice buf 0 4 == "RIFF".data &&
    asciiSlice buf 8 12 == "WEBP".data

def gltfJsonSig (buf : List Nat) : Bool :=
  decide (32 ≤ buf.length) && gltfJsonHeuristic (utf8HeadChars buf)

def sniffFileTypeFromBuffer (buf : List Nat) : SniffResult :=
  if buf.length < 4 then ⟨none, none⟩
  else if glbSig buf then ⟨some "model/gltf-binary", some "glb"⟩
  else if pngSig buf then ⟨some "image/png", some "png"⟩
  else if jpgSig buf then ⟨some "image/jpeg", some "jpg"⟩
  else if gifSig buf then ⟨some "image/gif", some "gif"⟩
  else if webpSig buf then ⟨some "image/webp", some "webp"⟩
  else if gltfJsonSig buf then ⟨some "model/gltf+json", some "gltf"⟩
  else ⟨none, none⟩

/-- Modelled from the spec: JSON values, for the "valid JSON whose root
object contains `"asset": \x7b "version": "…" \x7d`" reading of the GLTF
JSON clause. -/
inductive Json where
  | jnull : Json
  | jbool (b : Bool) : Json
  | jnum : Json
  | jstr (s : List Char) : Json
  | jarr (xs : List Json) : Json
  | jobj (kvs : List (List Char × Json)) : Json
deriving Repr

/-- Modelled from the spec: JSON insignificant whitespace. -/
def jsonWs (c : Char) : Bool :=
  c.toNat == 32 || c.toNat == 9 || c.toNat == 10 || c.toNat == 13

def skipWs (cs : List Char) : List Char := cs.dropWhile jsonWs

def isJsonHex (c : Char) : Bool :=
  c.isDigit || (97 ≤ c.toNat && c.toNat ≤ 102) || (65 ≤ c.toNat && c.toNat ≤ 70)

def jsonHexVal (c : Char) : Nat :=
  if c.isDigit then c.toNat - 48
  else if 97 ≤ c.toNat then c.toNat - 87
  else c.toNat - 55

def escapeChar (e : Char) : Option Char :=
  if e.toNat = 34 then some e
  else if e.toNat = 92 then some e
  else if e.toNat = 47 then some e
  else if e.toNat = 98 then some (Char.ofNat 8)
  else if e.toNat = 102 then some (Char.ofNat 12)
  else if e.toNat = 110 then some (Char.ofNat 10)
  else if e.toNat = 114 then some (Char.ofNat 13)
  else if e.toNat = 116 then some (Char.ofNat 9)
  else none

/-- Modelled from the spec: body of a JSON string after the opening quote;
returns the decoded content and the remainder after the closing quote. -/
def parseStringBody : Nat → List Char → Option (List Char × List Char)
  | 0, _ => none
  | _ + 1, [] => none
  | fuel + 1, c :: rest =>
    if c.toNat = 34 then some ([], rest)
    else if c.toNat = 92 then
      match rest with
      | [] => none
      | e :: rest2 =>
        if e.toNat = 117 then
          match rest2 with
          | a :: b :: c2 :: d :: rest3 =>
            if isJsonHex a && isJsonHex b && isJsonHex c2 && isJsonHex d then
              (parseStringBody fuel rest3).map fun p =>
                (Char.ofNat (((jsonHexVal a * 16 + jsonHexVal b) * 16 +
                  jsonHexVal c2) * 16 + jsonHexVal d) :: p.1, p.2)
            else none
          | _ => none
        else
          match escapeChar e with
          | some ec => (parseStringBody fuel rest2).map fun p => (ec :: p.1, p.2)
          | none => none
    else if c.toNat < 32 then none
    else (parseStringBody fuel rest).map fun p => (c :: p.1, p.2)

/-- Modelled from the spec: one-or-more decimal digits. -/
def parseDigits (cs : List Char) : Option (List Char) :=
  match cs with
  | c :: rest => if c.isDigit then some (rest.dropWhile Char.isDigit) else none
  | [] => none

/-- Modelled from the spec: optional fraction and exponent of a JSON
number. -/
def numFracExp (cs : List Char) : Option (List Char) :=
  let afterFrac : Option (List Char) :=
    match cs with
    | c :: rest =>
      if c.toNat = 46 then parseDigits rest else some cs
    | [] => some cs
  match afterFrac with
  | none => none
  | some cs2 =>
    match cs2 with
    | c :: rest =>
      if c.toNat = 101 ∨ c.toNat = 69 then
        match rest with
        | s :: r2 =>
          if s.toNat = 43 ∨ s.toNat = 45 then parseDigits r2 else parseDigits rest
        | [] => none
      else some cs2
    | [] => some cs2

/-- Modelled from the spec: a JSON number. -/
def parseNumber (cs : List Char) : Option (List Char) :=
  let cs1 := match cs with
    | c :: rest => if c.toNat = 45 then rest else cs
    | [] => cs
  match cs1 with
  | c :: rest =>
    if c.toNat = 48 then numFracExp rest
    else if c.isDigit then numFracExp (rest.dropWhile Char.isDigit)
    else none
  | [] => none

mutual

/-- Modelled from the spec: a JSON value; `fuel` bounds nesting. -/
def parseValue : Nat → List Char → Option (Json × List Char)
  | 0, _ => none
  | fuel + 1, cs =>
    match skipWs cs with
    | [] => none
    | c :: rest =>
      if c.toNat = 110 then (dropLit "ull".data rest).map fun r => (Json.jnull, r)
      else if c.toNat = 116 then (dropLit "rue".data rest).map fun r => (Json.jbool true, r)
      else if c.toNat = 102 then (dropLit "alse".data rest).map fun r => (Json.jbool false, r)
      else if c.toNat = 34 then
        (parseStringBody (fuel + 1) rest).map fun p => (Json.jstr p.1, p.2)
      else if c.toNat = 91 then
        match skipWs rest with
        | c2 :: r2 =>
          if c2.toNat = 93 then some (Json.jarr [], r2)
          else (parseElems fuel rest).map fun p => (Json.jarr p.1, p.2)
        | [] => none
      else if c.toNat = 123 then
        match skipWs rest with
        | c2 :: r2 =>
          if c2.toNat = 125 then some (Json.jobj [], r2)
          else (parseMembers fuel rest).map fun p => (Json.jobj p.1, p.2)
        | [] => none
      else (parseNumber (c :: rest)).map fun r => (Json.jnum, r)

/-- Modelled from the spec: comma-separated array elements up to `]`. -/
def parseElems : Nat → List Char → Option (List Json × List Char)
  | 0, _ => none
  | fuel + 1, cs =>
    match parseValue fuel cs with
    | none => none
    | some (v, r) =>
      match skipWs r with
      | c :: r2 =>
        if c.toNat = 44 then (parseElems fuel r2).map fun p => (v :: p.1, p.2)
        else if c.toNat = 93 then some ([v], r2)
        else none
      | [] => none

/-- Modelled from the spec: comma-separated object members up to `\x7d`. -/
def parseMembers : Nat → List Char → Option (List (List Char × Json) × List Char)
  | 0, _ => none
  | fuel + 1, cs =>
    match skipWs cs with
    | c :: rest =>
      if c.toNat = 34 then
        match parseStringBody (fuel + 1) rest with
        | some (k, r) =>
          match skipWs r with
          | c2 :: r2 =>
            if c2.toNat = 58 then
              match parseValue fuel r2 with
              | some (v, r3) =>
                match skipWs r3 with
                | c3 :: r4 =>
                  if c3.toNat = 44 then
                    (parseMembers fuel r4).map fun p => ((k, v) :: p.1, p.2)
                  else if c3.toNat = 125 then some ([(k, v)], r4)
                  else none
                | [] => none
              | none => none
            else none
          | [] => none
        | none => none
      else none
    | [] => none

end

/-- Modelled from the spec: parse a complete JSON document. -/
def jsonParse (cs : List Char) : Option Json :=
  match parseValue (cs.length + 1) cs with
  | some (j, rest) => if skipWs rest = [] then some j else none
  | none => none

def lookupKey : List (List Char × Json) → List Char → Option Json
  | [], _ => none
  | (k, v) :: rest, key => if k = key then some v else lookupKey rest key

/-- Modelled from the spec: the buffer is valid JSON whose root object has
an `"asset"` object member carrying a string `"version"` member. -/
def specIsGltfJson (buf : List Nat) : Bool :=
  match jsonParse (buf.map fun b => Char.ofNat b) with
  | some (Json.jobj kvs) =>
    match lookupKey kvs "asset".data with
    | some (Json.jobj akvs) =>
      match lookupKey akvs "version".data with
      | some (Json.jstr _) => true
      | _ => false
    | _ => false
  | _ => false

/-- The 32-byte ASCII buffer `\x7b"asset": \x7b"version": "2.0"` followed by
five spaces: truncated, hence not valid JSON at all. -/
def gltfCexBuf : List Nat :=
  [123, 34, 97, 115, 115, 101, 116, 34, 58, 32, 123, 34, 118, 101, 114, 115,
   105, 111, 110, 34, 58, 32, 34, 50, 46, 48, 34, 32, 32, 32, 32, 32]

/-- Counterexample to C9: `sniffFileTypeFromBuffer` classifies the truncated
(invalid-JSON) buffer `gltfCexBuf` as GLTF-JSON — the gate is the regex
heuristic on the first 256 bytes, not JSON validity. -/
theorem c9_sniff_cex :
    sniffFileTypeFromBuffer gltfCexBuf =
      ⟨some "model/gltf+json", some "gltf"⟩ ∧
    specIsGltfJson gltfCexBuf = false := by
  refine ⟨by decide, by decide⟩

theorem take_agree {buf buf2 : List Nat} (h : buf.take 256 = buf2.take 256)
    (k : Nat) (hk : k ≤ 256) : buf.take k = buf2.take k := by
  have h1 : (buf.take 256).take k = (buf2.take 256).take k := by rw [h]
  rwa [List.take_take, List.take_take, Nat.min_eq_left hk] at h1

theorem len_agree {buf buf2 : List Nat} (h : buf.take 256 = buf2.take 256)
    (k : Nat) (hk : k ≤ 256) : (k ≤ buf.length) ↔ (k ≤ buf2.length) := by
  have h1 := congrArg List.length h
  rw [List.length_take, List.length_take] at h1
  omega

theorem getD_agree {buf buf2 : List Nat} (h : buf.take 256 = buf2.take 256)
    (i : Nat) (hi : i < 256) : buf.getD i 0 = buf2.getD i 0 := by
  have h1 : (buf.take 256)[i]? = buf[i]? := List.getElem?_take_of_lt hi
  have h2 : (buf2.take 256)[i]? = buf2[i]? := List.getElem?_take_of_lt hi
  rw [List.getD_eq_getElem?_getD, List.getD_eq_getElem?_getD, ← h1, ← h2, h]

theorem asciiSlice_agree {buf buf2 : List Nat} (h : buf.take 256 = buf2.take 256)
    (a b : Nat) (hb : b ≤ 256) : asciiSlice buf a b = asciiSlice buf2 a b := by
  unfold asciiSlice
  have hd : (buf.drop a).take (b - a) = (buf2.drop a).take (b - a) := by
    have h1 : ((buf.take 256).drop a).take (b - a) =
        ((buf2.take 256).drop a).take (b - a) := by rw [h]
    rw [List.drop_take, List.drop_take, List.take_take, List.take_take,
      Nat.min_eq_left (by omega)] at h1
    exact h1
  rw [hd]

theorem pngSig_agree {buf buf2 : List Nat} (h : buf.take 256 = buf2.take 256) :
    pngSig buf = pngSig buf2 := by
  unfold pngSig
  rw [getD_agree h 0 (by omega), getD_agree h 1 (by omega), getD_agree h 2 (by omega),
    getD_agree h 3 (by omega), getD_agree h 4 (by omega), getD_agree h 5 (by omega),
    getD_agree h 6 (by omega), getD_agree h 7 (by omega),
    show decide (8 ≤ buf.length) = decide (8 ≤ buf2.length) from by
      simp only [decide_eq_decide]; exact len_agree h 8 (by omega)]

theorem jpgSig_agree {buf buf2 : List Nat} (h : buf.take 256 = buf2.take 256) :
    jpgSig buf = jpgSig buf2 := by
  unfold jpgSig
  rw [getD_agree h 0 (by omega), getD_agree h 1 (by omega), getD_agree h 2 (by omega),
    show decide (3 ≤ buf.length) = decide (3 ≤ buf2.length) from by
      simp only [decide_eq_decide]; exact len_agree h 3 (by omega)]

theorem glbSig_agree {buf buf2 : List Nat} (h : buf.take 256 = buf2.take 256) :
    glbSig buf = glbSig buf2 := by
  unfold glbSig
  rw [asciiSlice_agree h 0 4 (by omega)]

theorem gifSig_agree {buf buf2 : List Nat} (h : buf.take 256 = buf2.take 256) :
    gifSig buf = gifSig buf2 := by
  unfold gifSig
  rw [asciiSlice_agree h 0 6 (by omega),
    show decide (6 ≤ buf.length) = decide (6 ≤ buf2.length) from by
      simp only [decide_eq_decide]; exact len_agree h 6 (by omega)]

theorem webpSig_agree {buf buf2 : List Nat} (h : buf.take 256 = buf2.take 256) :
    webpSig buf = webpSig buf2 := by
  unfold webpSig
  rw [asciiSlice_agree h 0 4 (by omega), asciiSlice_agree h 8 12 (by omega),
    show decide (12 ≤ buf.length) = decide (12 ≤ buf2.length) from by
      simp only [decide_eq_decide]; exact len_agree h 12 (by omega)]

theorem gltfJsonSig_agree {buf buf2 : List Nat} (h : buf.take 256 = buf2.take 256) :
    gltfJsonSig buf = gltfJsonSig buf2 := by
  unfold gltfJsonSig
  rw [show utf8HeadChars buf = utf8HeadChars buf2 from by unfold utf8HeadChars; rw [h],
    show decide (32 ≤ buf.length) = decide (32 ≤ buf2.length) from by
      simp only [decide_eq_decide]; exact len_agree h 32 (by omega)]

/-- C9 (amended): the sniffer (1) depends only on the first 256 bytes of
the buffer; (2) classifies a buffer as GLTF-JSON exactly when the buffer is
at least 4 bytes long, none of the earlier signature checks fire, the
buffer is at least 32 bytes long and the regex heuristic accepts the
decoded head — a syntactic test that does not require JSON validity; and
(3) yields `\x7bnull, null\x7d` whenever none of its checks fire. -/
theorem c9_sniff_amended (buf : List Nat) :
    (∀ buf2, buf.take 256 = buf2.take 256 →
      sniffFileTypeFromBuffer buf = sniffFileTypeFromBuffer buf2) ∧
    (sniffFileTypeFromBuffer buf = ⟨some "model/gltf+json", some "gltf"⟩ ↔
      (¬ buf.length < 4 ∧ glbSig buf = false ∧ pngSig buf = false ∧
        jpgSig buf = false ∧ gifSig buf = false ∧ webpSig buf = false ∧
        gltfJsonSig buf = true)) ∧
    ((glbSig buf = false ∧ pngSig buf = false ∧ jpgSig buf = false ∧
        gifSig buf = false ∧ webpSig buf = false ∧ gltfJsonSig buf = false) →
      sniffFileTypeFromBuffer buf = ⟨none, none⟩) := by
  refine ⟨?_, ?_, ?_⟩
  · intro buf2 h
    unfold sniffFileTypeFromBuffer
    rw [glbSig_agree h, pngSig_agree h, jpgSig_agree h, gifSig_agree h,
      webpSig_agree h, gltfJsonSig_agree h]
    have hl : buf.length < 4 ↔ buf2.length < 4 := by
      have := len_agree h 4 (by omega)
      omega
    simp only [hl]
  · unfold sniffFileTypeFromBuffer
    by_cases h1 : buf.length < 4
    · simp [h1]
    · rw [if_neg h1]
      by_cases h2 : glbSig buf = true
      · simp [h1, h2]
      · rw [if_neg h2]
        by_cases h3 : pngSig buf = true
        · simp [h1, h2, h3]
        · rw [if_neg h3]
          by_cases h4 : jpgSig buf = true
          · simp [h1, h2, h3, h4]
          · rw [if_neg h4]
            by_cases h5 : gifSig buf = true
            · simp [h1, h2, h3, h4, h5]
            · rw [if_neg h5]
              by_cases h6 : webpSig buf = true
              · simp [h1, h2, h3, h4, h5, h6]
              · rw [if_neg h6]
                by_cases h7 : gltfJsonSig buf = true
                · rw [if_pos h7]
                  simp only [Bool.not_eq_true] at h2 h3 h4 h5 h6
                  simp [h1, h2, h3, h4, h5, h6, h7]
                · rw [if_neg h7]
                  simp only [Bool.not_eq_true] at h7
                  simp [h7]
  · rintro ⟨h2, h3, h4, h5, h6, h7⟩
    unfold sniffFileTypeFromBuffer
    by_cases h1 : buf.length < 4
    · rw [if_pos h1]
    · rw [if_neg h1, h2, h3, h4, h5, h6, h7]
      rfl

set_option maxRecDepth 100000 in
set_option maxHeartbeats 1000000 in
/-- Witness for C9 (amended) on `gltfCexBuf` padded with spaces to exactly
256 bytes: locality against a longer buffer differing only beyond byte 256,
and the gltf+json characterization. -/
theorem c9_sniff_amended_witness :
    sniffFileTypeFromBuffer (gltfCexBuf ++ List.replicate 224 32) =
      sniffFileTypeFromBuffer (gltfCexBuf ++ List.replicate 224 32 ++ [1, 2, 3]) ∧
    (¬ (gltfCexBuf ++ List.replicate 224 32).length < 4 ∧
      glbSig (gltfCexBuf ++ List.replicate 224 32) = false ∧
      pngSig (gltfCexBuf ++ List.replicate 224 32) = false ∧
      jpgSig (gltfCexBuf ++ List.replicate 224 32) = false ∧
      gifSig (gltfCexBuf ++ List.replicate 224 32) = false ∧
      webpSig (gltfCexBuf ++ List.replicate 224 32) = false ∧
      gltfJsonSig (gltfCexBuf ++ List.replicate 224 32) = true) := by
  constructor
  · exact (c9_sniff_amended (gltfCexBuf ++ List.replicate 224 32)).1
      (gltfCexBuf ++ List.replicate 224 32 ++ [1, 2, 3]) (by decide)
  · exact (c9_sniff_amended (gltfCexBuf ++ List.replicate 224 32)).2.1.mp (by decide)

end DogeTools
